import Mathlib

/-!
Verification of the layout-reconstruction core of the HIN_EN_PDF_Translator
repository (package PDF_Translate).  Python floats are modelled as exact
rationals, in-place mutation of dataclasses is modelled by functions that
return the updated value, and the external renderer / translation service is
modelled by explicit oracle arguments.
-/

namespace PDFTranslate

/-- Axis-aligned rectangle (x0, y0, x1, y1), the tuple shape used throughout utils.py. -/
structure Rect where
  x0 : ℚ
  y0 : ℚ
  x1 : ℚ
  y1 : ℚ
deriving DecidableEq

/-- Embedding of utils.rect_iou: intersection area over union area, where the
union is clamped below by 1e-9 and a non-positive intersection returns 0. -/
def rect_iou (a b : Rect) : ℚ :=
  let ix0 := max a.x0 b.x0
  let iy0 := max a.y0 b.y0
  let ix1 := min a.x1 b.x1
  let iy1 := min a.y1 b.y1
  let w := max 0 (ix1 - ix0)
  let h := max 0 (iy1 - iy0)
  let inter := w * h
  if inter ≤ 0 then 0
  else
    let area_a := (a.x1 - a.x0) * (a.y1 - a.y0)
    let area_b := (b.x1 - b.x0) * (b.y1 - b.y0)
    let unionArea := max (1 / 1000000000) (area_a + area_b - inter)
    inter / unionArea

/-- Embedding of utils.rect_center. -/
def rect_center (r : Rect) : ℚ × ℚ := ((r.x0 + r.x1) / 2, (r.y0 + r.y1) / 2)

/-- Embedding of utils.point_in_rect (boundary inclusive on all four sides). -/
def point_in_rect (pt : ℚ × ℚ) (r : Rect) : Bool :=
  decide (r.x0 ≤ pt.1) && decide (pt.1 ≤ r.x1) && decide (r.y0 ≤ pt.2) && decide (pt.2 ≤ r.y1)

/-- Squared centroid-to-centroid distance.  utils.center_dist returns the square
root of this quantity; the source only ever compares distances (argmin), and
the square root is strictly monotone on nonnegative arguments, so selections
computed with the squared distance coincide with the source's selections. -/
def center_dist_sq (a b : Rect) : ℚ :=
  let c := rect_center a
  let d := rect_center b
  (c.1 - d.1) ^ 2 + (c.2 - d.2) ^ 2

/-- The Euclidean centroid distance of utils.center_dist, as a real number. -/
noncomputable def center_dist (a b : Rect) : ℝ :=
  Real.sqrt ((center_dist_sq a b : ℚ) : ℝ)

/-- Area of a rectangle, (x1-x0)*(y1-y0), as computed inline by the source. -/
def rect_area (r : Rect) : ℚ := (r.x1 - r.x0) * (r.y1 - r.y0)

/-- Two rectangles have disjoint interiors: they overlap in neither axis. -/
def RectDisjoint (a b : Rect) : Prop :=
  min a.x1 b.x1 ≤ max a.x0 b.x0 ∨ min a.y1 b.y1 ≤ max a.y0 b.y0

/-- Clamp a rational into [0,1], the inline max(0.0, min(1.0, v)) of utils. -/
def clamp01 (v : ℚ) : ℚ := max 0 (min 1 v)

/-- Embedding of utils._to_rgb: a 1-tuple gray is broadcast unclamped, 3- and
4-tuples take their first three components clamped into [0,1], and the empty
tuple gives black.  A 2-tuple raises IndexError in the source, modelled as
none (no claim concerns 2-tuples). -/
def _to_rgb : List ℚ → Option (ℚ × ℚ × ℚ)
  | [] => some (0, 0, 0)
  | [v] => some (v, v, v)
  | [_, _] => none
  | r :: g :: b :: _ => some (clamp01 r, clamp01 g, clamp01 b)

/-- Embedding of utils._rel_luminance (sRGB-ish weights). -/
def _rel_luminance (rgb : ℚ × ℚ × ℚ) : ℚ :=
  2126 / 10000 * rgb.1 + 7152 / 10000 * rgb.2.1 + 722 / 10000 * rgb.2.2

/-- Embedding of utils.pick_redact_fill_for_color: black fill when the relative
luminance is at least 0.85, white fill otherwise. -/
def pick_redact_fill_for_color (color : List ℚ) : Option (ℚ × ℚ × ℚ) :=
  (_to_rgb color).map (fun rgb =>
    if 17 / 20 ≤ _rel_luminance rgb then (0, 0, 0) else (1, 1, 1))

/-- The luminance formula exactly as the claim words it: weighted sum of the
raw tuple components, a gray value being broadcast to all three channels. -/
def claimLuminance : List ℚ → ℚ
  | [v] => 2126 / 10000 * v + 7152 / 10000 * v + 722 / 10000 * v
  | r :: g :: b :: _ => 2126 / 10000 * r + 7152 / 10000 * g + 722 / 10000 * b
  | _ => 0

/-- Embedding of utils.calculate_fitting_fontsize.  The renderer measurement
page.get_text_length is modelled by the measured argument: some w is the
measured single-line width of the text at fontsize base_size, and none models
the exception path of the try block, which returns base_size unchanged. -/
def calculate_fitting_fontsize (rect : Rect) (measured : Option ℚ) (base_size : ℚ) : ℚ :=
  let r_width := rect.x1 - rect.x0
  let r_height := rect.y1 - rect.y0
  if r_width ≤ 0 ∨ r_height ≤ 0 then base_size
  else
    match measured with
    | none => base_size
    | some width =>
      if r_width < width then max 5 (base_size * (r_width / width) * (19 / 20))
      else base_size

/-- Padding used by insert_text_fit when pad_px is None: max(1.2, 0.20 * base_size). -/
def fit_pad (base_size : ℚ) : ℚ := max (6 / 5) (1 / 5 * base_size)

/-- The rect expanded by pad on all four sides, as in insert_text_fit. -/
def padRect (r : Rect) (p : ℚ) : Rect := Rect.mk (r.x0 - p) (r.y0 - p) (r.x1 + p) (r.y1 + p)

/-- The retry loop of utils.insert_text_fit.  verdict i s models the value
returned by page.insert_textbox on the i-th attempt at effective fontsize s
(nonnegative means the text fitted; the effective size is current_size clamped
up to the 8pt minimum readable size, with the target box expanded when the
clamp engages).  fuel is the remaining iterations of the range(15) loop.
Returns (fitted, the current_size of each attempt made, the final
current_size after the loop). -/
def fitLoop (verdict : ℕ → ℚ → ℚ) : ℕ → ℕ → ℚ → Bool × List ℚ × ℚ
  | 0, _, cur => (false, [], cur)
  | fuel + 1, k, cur =>
    if 0 ≤ verdict k (max cur 8) then (true, [cur], cur)
    else
      let cur' := cur * (9 / 10)
      if cur' < 3 then (false, [cur], cur')
      else
        let out := fitLoop verdict fuel (k + 1) cur'
        (out.1, cur :: out.2.1, out.2.2)

/-- Embedding of utils.insert_text_fit.  The renderer is modelled by verdict
(see fitLoop) and measured is the get_text_length measurement used inside
calculate_fitting_fontsize at fontsize base_size * 1.05.  Returns the
fit/no-fit boolean, the attempted sizes, and, when every textbox attempt
failed, the point and fontsize of the final unwrapped insert_text call, a
plain draw that always succeeds. -/
def insert_text_fit (verdict : ℕ → ℚ → ℚ) (rect : Rect) (measured : Option ℚ)
    (base_size : ℚ) : Bool × List ℚ × Option ((ℚ × ℚ) × ℚ) :=
  let r := padRect rect (fit_pad base_size)
  let init := calculate_fitting_fontsize r measured (base_size * (21 / 20))
  let out := fitLoop verdict 15 0 init
  if out.1 then (true, out.2.1, none)
  else (false, out.2.1, some ((r.x0, r.y0 + max out.2.2 8), max out.2.2 8))

/-- Embedding of the Span dataclass of utils.py.  Colors are the normalized
tuples produced by normalize_color, modelled as rational lists. -/
structure Span where
  page : ℤ
  rect : Rect
  text : String
  fontsize : ℚ
  color : List ℚ
  font : String
  flags : ℤ
deriving DecidableEq

/-- One record of the per-page original-style index consumed by
transfer_style_from_original: bbox, color, size, font, flags. -/
structure OrigSpan where
  bbox : Rect
  color : List ℚ
  size : ℚ
  font : String
  flags : ℤ
deriving DecidableEq

/-- The best-candidate scan of transfer_style_from_original: the running best
is replaced exactly when a candidate's IoU strictly exceeds the best IoU so
far; the running best starts at -1.0, so the first candidate always becomes
the initial best. -/
def argmaxIoU (r : Rect) : OrigSpan → List OrigSpan → OrigSpan
  | best, [] => best
  | best, c :: rest =>
    if rect_iou r best.bbox < rect_iou r c.bbox then argmaxIoU r c rest
    else argmaxIoU r best rest

/-- Python min(iterable, key=f): the first element attaining the minimal key
(the running minimum is replaced only on a strictly smaller key). -/
def minBy {α : Type} (f : α → ℚ) : α → List α → α
  | best, [] => best
  | best, c :: rest => if f c < f best then minBy f c rest else minBy f best rest

/-- Candidate bbox area, the min-key of the containment branch of
transfer_style_from_original. -/
def candArea (c : OrigSpan) : ℚ := (c.bbox.x1 - c.bbox.x0) * (c.bbox.y1 - c.bbox.y0)

/-- The four style assignments performed by every branch of
transfer_style_from_original. -/
def adoptStyle (sp : Span) (c : OrigSpan) : Span :=
  { sp with color := c.color, fontsize := c.size, font := c.font, flags := c.flags }

/-- Embedding of textlayer.transfer_style_from_original for a single span:
the update applied to sp given its page's candidate list; an empty candidate
list leaves the span untouched.  The final branch minimizes the centroid
distance; the source compares square roots of the squared distances and minBy
only ever compares keys, and the square root is strictly monotone on
nonnegative arguments, so minimizing the squared distance selects exactly the
candidate the source selects. -/
def transfer_style_span (iou_hi iou_lo : ℚ) (candidates : List OrigSpan) (sp : Span) : Span :=
  match candidates with
  | [] => sp
  | c0 :: rest =>
    let best := argmaxIoU sp.rect c0 rest
    if iou_hi ≤ rect_iou sp.rect best.bbox then adoptStyle sp best
    else
      match (c0 :: rest).filter (fun c => point_in_rect (rect_center sp.rect) c.bbox) with
      | i0 :: irest => adoptStyle sp (minBy candArea i0 irest)
      | [] =>
        if iou_lo ≤ rect_iou sp.rect best.bbox then adoptStyle sp best
        else adoptStyle sp (minBy (fun c => center_dist_sq sp.rect c.bbox) c0 rest)

/-- Embedding of textlayer.transfer_style_from_original over a whole span
list, with the default thresholds iou_hi = 0.80 and iou_lo = 0.10 and the
page-indexed style index. -/
def transfer_style_from_original (spans : List Span) (orig_index : ℤ → List OrigSpan) :
    List Span :=
  spans.map (fun sp => transfer_style_span (4 / 5) (1 / 10) (orig_index sp.page) sp)

/-- Helper for Python str.split(): accumulate the current token (reversed) and
emit tokens at whitespace boundaries; empty tokens are never emitted, matching
split() with no separator argument. -/
def wsSplitAux : List Char → List Char → List (List Char)
  | [], cur => if cur.isEmpty then [] else [cur.reverse]
  | c :: rest, cur =>
    if c.isWhitespace then
      if cur.isEmpty then wsSplitAux rest [] else cur.reverse :: wsSplitAux rest []
    else wsSplitAux rest (c :: cur)

/-- Python str.split() with no arguments: the whitespace-separated tokens. -/
def pySplit (s : String) : List String := (wsSplitAux s.data []).map String.mk

/-- Python str.strip(): drop whitespace from both ends. -/
def pyStrip (s : String) : String :=
  String.mk (((s.data.dropWhile Char.isWhitespace).reverse.dropWhile Char.isWhitespace).reverse)

/-- Whitespace collapse of one line, Python " ".join(line.split()). -/
def normWsLine (s : String) : String := " ".intercalate (pySplit s)

/-- The punctuation class of the re.sub in translate_text: comma, period,
semicolon, colon, exclamation, question mark, and the Devanagari danda. -/
def punctAfterSpace : List Char := [',', '.', ';', ':', '!', '?', '।']

/-- The re.sub(r"\s+([,.;:!?।])", r"\1", ...) step: every whitespace run
immediately preceding one of the punctuation characters is removed (modelled
character-wise from the right; dropping each whitespace character directly
before punctuation removes exactly the \s+ runs the regex removes). -/
def stripSpaceBeforePunct (s : String) : String :=
  String.mk (s.data.foldr (fun c acc =>
    if c.isWhitespace && (match acc with
      | p :: _ => decide (p ∈ punctAfterSpace)
      | [] => false) then acc
    else c :: acc) [])

/-- Embedding of textlayer.translate_text.  The pluggable translator is an
oracle returning Except: Except.error models translator.translate raising.
Python splitlines is modelled as splitting on the newline character (the only
difference concerns exotic line separators, which no claim concerns). -/
def translate_text (text src dest : String)
    (translator : Option (String → String → String → Except String String)) : String :=
  match translator with
  | none => text
  | some tr =>
    match tr text src dest with
    | Except.error _ => text
    | Except.ok out =>
      stripSpaceBeforePunct ("\n".intercalate ((out.splitOn "\n").map normWsLine))

/-- The googletrans result object: getattr(res, "text", text) is modelled by
an optional text field. -/
structure GoogleResult where
  text : Option String
deriving DecidableEq

/-- Embedding of translation.GoogleTranslator.translate.  The wrapped
googletrans service is an oracle returning Except: Except.error models any
exception inside the try block (the coroutine branch is a scheduling detail
with no bearing on the claims).  A result without a text attribute falls back
to the input text via getattr's default. -/
def googleTranslate (service : String → String → String → Except String GoogleResult)
    (text source_lang target_lang : String) : String :=
  let src := if source_lang ≠ "auto" then source_lang else "auto"
  match service text src target_lang with
  | Except.error _ => text
  | Except.ok res => res.text.getD text

/-- Embedding of the HybridSegment dataclass (hybrid.py). -/
structure HybridSegment where
  rect : Rect
  text : String
  sizes : List ℚ
deriving DecidableEq

/-- Embedding of the HybridLine dataclass (hybrid.py). -/
structure HybridLine where
  rect : Rect
  text : String
  segments : List HybridSegment
deriving DecidableEq

/-- Embedding of the HybridBlock dataclass (hybrid.py); fontsize defaults to
11.5 and color to the gray 1-tuple (0.0,) at construction sites. -/
structure HybridBlock where
  page : ℤ
  rect : Rect
  lines : List HybridLine
  text : String
  fontsize : ℚ
  color : List ℚ
deriving DecidableEq

/-- The (x0, x1) band of every segment of every line of a block, in iteration
order, as collected by build_columns and is_table_like. -/
def allBands (hb : HybridBlock) : List (ℚ × ℚ) :=
  hb.lines.flatMap (fun ln => ln.segments.map (fun seg => (seg.rect.x0, seg.rect.x1)))

/-- Lexicographic order on bands, Python's default tuple comparison used by
list.sort. -/
def bandLe (p q : ℚ × ℚ) : Prop := p.1 < q.1 ∨ (p.1 = q.1 ∧ p.2 ≤ q.2)

instance : DecidableRel bandLe := fun p q => by
  unfold bandLe
  exact inferInstance

instance : IsTotal (ℚ × ℚ) bandLe := by
  constructor
  intro a b
  unfold bandLe
  rcases lt_trichotomy a.1 b.1 with h | h | h
  · exact Or.inl (Or.inl h)
  · rcases le_total a.2 b.2 with h2 | h2
    · exact Or.inl (Or.inr ⟨h, h2⟩)
    · exact Or.inr (Or.inr ⟨h.symm, h2⟩)
  · exact Or.inr (Or.inl h)

instance : IsTrans (ℚ × ℚ) bandLe := by
  constructor
  intro a b c hab hbc
  unfold bandLe at *
  rcases hab with h1 | ⟨h1, h1'⟩ <;> rcases hbc with h2 | ⟨h2, h2'⟩
  · exact Or.inl (lt_trans h1 h2)
  · exact Or.inl (h2 ▸ h1)
  · exact Or.inl (h1 ▸ h2)
  · exact Or.inr ⟨h1.trans h2, le_trans h1' h2'⟩

/-- Python list.sort() on (x0, x1) tuples.  Python's sort is a stable
ascending sort under the total lexicographic order; ties are identical pair
values, so any correct ascending sort produces the identical list, and we use
insertion sort. -/
def sortPairs (l : List (ℚ × ℚ)) : List (ℚ × ℚ) := List.insertionSort bandLe l

/-- The band-merge fold of build_columns with the accumulated columns held in
reverse order: a band opens a new column exactly when its left edge exceeds
the current column's right edge minus the tolerance (Python: x0 >
cols[-1][1] - tol, with tol = 8.0), otherwise it extends the current column's
right edge to the max of the two right edges. -/
def mergeBandsRev (tol : ℚ) : List (ℚ × ℚ) → List (ℚ × ℚ) → List (ℚ × ℚ)
  | acc, [] => acc
  | [], (x0, x1) :: rest => mergeBandsRev tol [(x0, x1)] rest
  | (c0, c1) :: accrest, (x0, x1) :: rest =>
    if c1 - tol < x0 then mergeBandsRev tol ((x0, x1) :: (c0, c1) :: accrest) rest
    else mergeBandsRev tol ((c0, max c1 x1) :: accrest) rest

/-- Embedding of hybrid.build_columns. -/
def build_columns (hb : HybridBlock) : List (ℚ × ℚ) :=
  let bands := allBands hb
  if bands.isEmpty then [(hb.rect.x0, hb.rect.x1)]
  else (mergeBandsRev 8 [] (sortPairs bands)).reverse

/-- The merge rule build_columns actually implements, as direct recursion over
the sorted band list: the next band is merged into the current column exactly
when it starts at least 8pt to the left of the current column's right edge
(an overlap of at least 8pt); otherwise it opens a new column. -/
def specMergeColumns : (ℚ × ℚ) → List (ℚ × ℚ) → List (ℚ × ℚ)
  | cur, [] => [cur]
  | (c0, c1), (x0, x1) :: rest =>
    if x0 ≤ c1 - 8 then specMergeColumns (c0, max c1 x1) rest
    else (c0, c1) :: specMergeColumns (x0, x1) rest

/-- One character record of the PyMuPDF rawdict consumed by hybrid extraction:
its text and optional bbox. -/
structure RawChar where
  c : String
  bbox : Option Rect
deriving DecidableEq

/-- One span record of the rawdict: optional plain text, character list,
optional bbox, optional size (a missing size defaults to 11.5). -/
structure RawSpan where
  text : Option String
  chars : List RawChar
  bbox : Option Rect
  size : Option ℚ
deriving DecidableEq

/-- One line record of the rawdict. -/
structure RawLine where
  spans : List RawSpan
deriving DecidableEq

/-- One block record of the rawdict; image blocks carry no "lines" key,
modelled as none, and a missing bbox defaults to (0,0,0,0). -/
structure RawBlock where
  bbox : Option Rect
  lines : Option (List RawLine)
deriving DecidableEq

/-- One page of rawdict output. -/
structure RawPage where
  blocks : List RawBlock
deriving DecidableEq

/-- Python min over a nonempty list, head plus fold over the tail. -/
def qMin (x : ℚ) (xs : List ℚ) : ℚ := xs.foldl min x

/-- Python max over a nonempty list, head plus fold over the tail. -/
def qMax (x : ℚ) (xs : List ℚ) : ℚ := xs.foldl max x

/-- The char-union bbox of the chars branch of extract_blocks_with_segments:
min/max over the chars that carry a bbox, or the block rect if none do. -/
def charsRect (brect : Rect) (chars : List RawChar) : Rect :=
  match chars.filterMap (fun ch => ch.bbox) with
  | [] => brect
  | r :: rs =>
    Rect.mk (qMin r.x0 (rs.map (fun q => q.x0))) (qMin r.y0 (rs.map (fun q => q.y0)))
      (qMax r.x1 (rs.map (fun q => q.x1))) (qMax r.y1 (rs.map (fun q => q.y1)))

/-- The per-span text/bbox computation of extract_blocks_with_segments: a span
with non-blank plain text is whitespace-collapsed and keeps its own bbox
(default: the block rect); otherwise the text is joined from the chars and
stripped, and the bbox is the union of the char bboxes (falling back to the
block rect when there are no chars or no char bboxes). -/
def spanPiece (brect : Rect) (sp : RawSpan) : String × Rect :=
  let charsBranch : String × Rect :=
    (pyStrip (String.join (sp.chars.map (fun ch => ch.c))),
      if sp.chars.isEmpty then brect else charsRect brect sp.chars)
  match sp.text with
  | some s => if pyStrip s ≠ "" then (normWsLine s, sp.bbox.getD brect) else charsBranch
  | none => charsBranch

/-- Sort key order for pieces: left x of the piece bbox.  pieces.sort is
stable; insertion sort with a non-strict key comparison is stable as well. -/
def pieceLe (p q : Rect × String × ℚ) : Prop := p.1.x0 ≤ q.1.x0

instance : DecidableRel pieceLe := fun p q => by
  unfold pieceLe
  exact inferInstance

/-- Flush the accumulated segment pieces into a HybridSegment: union rect,
space-joined texts, collected sizes.  An empty accumulator flushes nothing. -/
def flushSeg : List (Rect × String × ℚ) → Option HybridSegment
  | [] => none
  | e :: es =>
    some (HybridSegment.mk
      (Rect.mk (qMin e.1.x0 (es.map (fun p => p.1.x0))) (qMin e.1.y0 (es.map (fun p => p.1.y0)))
        (qMax e.1.x1 (es.map (fun p => p.1.x1))) (qMax e.1.y1 (es.map (fun p => p.1.y1))))
      (" ".intercalate ((e :: es).map (fun p => p.2.1)))
      ((e :: es).map (fun p => p.2.2)))

/-- The segment-splitting fold of extract_blocks_with_segments: walking the
x-sorted pieces, a new segment starts whenever the gap from the previous
piece's right edge exceeds SEG_GAP; the accumulated run is flushed first. -/
def buildSegs (gap : ℚ) : List (Rect × String × ℚ) → Option ℚ → List (Rect × String × ℚ) →
    List HybridSegment
  | cur, _, [] =>
    match flushSeg cur with
    | some s => [s]
    | none => []
  | cur, last, (bb, t, sz) :: rest =>
    match last with
    | some lx1 =>
      if gap < bb.x0 - lx1 then
        (match flushSeg cur with
          | some s => [s]
          | none => []) ++ buildSegs gap [(bb, t, sz)] (some bb.x1) rest
      else buildSegs gap (cur ++ [(bb, t, sz)]) (some bb.x1) rest
    | none => buildSegs gap (cur ++ [(bb, t, sz)]) (some bb.x1) rest

/-- The per-line body of extract_blocks_with_segments: build the pieces (spans
with non-empty text), drop the line if none remain, take the union rect over
the bboxes of all spans, sort the pieces by left x, split them into segments,
and join the sorted piece texts into the line text. -/
def processLine (brect : Rect) (gap : ℚ) (ln : RawLine) : Option HybridLine :=
  match ln.spans with
  | [] => none
  | sp0 :: sprest =>
    let entries := (sp0 :: sprest).map (fun sp => (spanPiece brect sp, sp.size.getD (23 / 2)))
    let pieces := (entries.filter (fun e => decide (e.1.1 ≠ ""))).map
      (fun e => (e.1.2, e.1.1, e.2))
    match pieces with
    | [] => none
    | _ :: _ =>
      let r0 := (spanPiece brect sp0).2
      let rrest := sprest.map (fun sp => (spanPiece brect sp).2)
      let x0 := qMin r0.x0 (rrest.map (fun r => r.x0))
      let y0 := qMin r0.y0 (rrest.map (fun r => r.y0))
      let x1 := qMax r0.x1 (rrest.map (fun r => r.x1))
      let y1 := qMax r0.y1 (rrest.map (fun r => r.y1))
      let sorted := List.insertionSort pieceLe pieces
      let segments := buildSegs gap [] none sorted
      let line_text := " ".intercalate (sorted.map (fun p => p.2.1))
      some (HybridLine.mk (Rect.mk x0 y0 x1 y1) line_text segments)

/-- The per-block body of extract_blocks_with_segments: skip blocks without
lines, compute SEG_GAP = max(10, 0.12 * blockWidth) with the width clamped
below by 1, process the lines, skip the block if no line survives, and build
the HybridBlock with newline-joined stripped text and the default style. -/
def processBlock (pno : ℤ) (b : RawBlock) : Option HybridBlock :=
  match b.lines with
  | none => none
  | some rlines =>
    let brect := b.bbox.getD (Rect.mk 0 0 0 0)
    let bw := max 1 (brect.x1 - brect.x0)
    let gap := max 10 ((12 / 100) * bw)
    let lines := rlines.filterMap (processLine brect gap)
    match lines with
    | [] => none
    | _ :: _ =>
      some (HybridBlock.mk pno brect lines
        (pyStrip ("\n".intercalate (lines.map (fun l => l.text)))) (23 / 2) [0])

/-- The page loop of extract_blocks_with_segments.  The source body appends
the constructed HybridBlock twice: lines 106-113 of hybrid.py repeat the
guard, the block_text computation and the append verbatim, so every
qualifying raw block contributes two identical entries. -/
def extractPages : ℤ → List RawPage → List HybridBlock
  | _, [] => []
  | pno, pg :: rest =>
    pg.blocks.flatMap (fun b =>
      match processBlock pno b with
      | none => []
      | some hb => [hb, hb]) ++ extractPages (pno + 1) rest

/-- Embedding of hybrid.extract_blocks_with_segments over the whole document. -/
def extract_blocks_with_segments (doc : List RawPage) : List HybridBlock :=
  extractPages 0 doc

/-- Embedding of statistics.median: sort ascending, take the middle element
for odd length and the mean of the two middle elements for even length.  The
callers in textlayer.py only reach it with a non-empty list (they guard on a
non-empty match), so the StatisticsError branch is unreachable there. -/
def pyMedian (xs : List ℚ) : ℚ :=
  let s := List.insertionSort (fun a b : ℚ => a ≤ b) xs
  if s.length % 2 = 1 then s.getD (s.length / 2) 0
  else (s.getD (s.length / 2 - 1) 0 + s.getD (s.length / 2) 0) / 2

/-- One step of the color_counts dict update: increment the count of an
existing key in place, or append the key at the end with count 1 (Python
dicts preserve insertion order). -/
def bump {K : Type} [DecidableEq K] (k : K) : List (K × ℕ) → List (K × ℕ)
  | [] => [(k, 1)]
  | (k2, n) :: rest => if k2 = k then (k2, n + 1) :: rest else (k2, n) :: bump k rest

/-- The color_counts dict of derive_line_styles_from_spans /
derive_block_styles_from_spans as an insertion-ordered association list. -/
def tally {K : Type} [DecidableEq K] (cs : List K) : List (K × ℕ) :=
  cs.foldl (fun acc c => bump c acc) []

/-- Python max(items, key=snd): the first pair attaining the maximal count
(the running maximum is replaced only on a strictly greater count). -/
def maxBySnd {K : Type} : (K × ℕ) → List (K × ℕ) → (K × ℕ)
  | best, [] => best
  | best, p :: rest => if best.2 < p.2 then maxBySnd p rest else maxBySnd best rest

/-- Embedding of the most-frequent-color selection of the style aggregation:
max over the insertion-ordered count dict, keyed by count. -/
def mostFrequent {K : Type} [DecidableEq K] (c0 : K) (cs : List K) : K :=
  match tally (c0 :: cs) with
  | [] => c0
  | p :: ps => (maxBySnd p ps).1

/-- Number of occurrences of k in cs. -/
def countOcc {K : Type} [DecidableEq K] (k : K) (cs : List K) : ℕ :=
  cs.countP (fun x => decide (x = k))

/-- The maximal occurrence count over the list. -/
def maxCount {K : Type} [DecidableEq K] (cs : List K) : ℕ :=
  (cs.map (fun c => countOcc c cs)).foldr max 0

/-- The claim's color rule, stated directly: the first element of the list
whose occurrence count is maximal — the most frequent color with ties
resolved to the first-seen one. -/
def firstMostFrequent {K : Type} [DecidableEq K] (cs : List K) : Option K :=
  cs.find? (fun c => decide (countOcc c cs = maxCount cs))

/-- First occurrences of each value, in order of first appearance — the key
order of an insertion-ordered dict. -/
def firstKeys {K : Type} [DecidableEq K] : List K → List K
  | [] => []
  | c :: rest => c :: firstKeys (rest.filter (fun x => decide (¬ x = c)))
termination_by l => l.length
decreasing_by
  simp only [List.length_cons]
  exact Nat.lt_succ_of_le (List.length_filter_le _ _)

/-- Count lookup in an association list (first matching key wins). -/
def lookupCount {K : Type} [DecidableEq K] (k : K) : List (K × ℕ) → ℕ
  | [] => 0
  | (k2, n) :: rest => if k2 = k then n else lookupCount k rest

/-- Embedding of the Line dataclass of utils.py. -/
structure Line where
  page : ℤ
  rect : Rect
  text : String
  fontsize : ℚ
  color : List ℚ
  font : String
  flags : ℤ
deriving DecidableEq

/-- Embedding of the Block dataclass of utils.py. -/
structure Block where
  page : ℤ
  rect : Rect
  text : String
  fontsize : ℚ
  color : List ℚ
  font : String
  flags : ℤ
deriving DecidableEq

/-- The span filter of derive_line_styles_from_spans: spans on the line's page
whose rect has IoU strictly above 0.5 with the line's rect or whose centroid
lies inside it.  The source first buckets spans by page (dict insertion order
preserves extraction order) and filters the bucket; filtering the full list
on page equality plus the geometric test yields the same spans in the same
order. -/
def lineMatchedSpans (spans : List Span) (ln : Line) : List Span :=
  spans.filter (fun sp => decide (sp.page = ln.page) &&
    (decide (1 / 2 < rect_iou ln.rect sp.rect) || point_in_rect (rect_center sp.rect) ln.rect))

/-- The same filter with the claim's non-strict 0.5 threshold. -/
def lineMatchedSpansSpec (spans : List Span) (ln : Line) : List Span :=
  spans.filter (fun sp => decide (sp.page = ln.page) &&
    (decide (1 / 2 ≤ rect_iou ln.rect sp.rect) || point_in_rect (rect_center sp.rect) ln.rect))

/-- The span filter of derive_block_styles_from_spans: threshold strictly
above 0.4, or centroid inside the block rect. -/
def blockMatchedSpans (spans : List Span) (bl : Block) : List Span :=
  spans.filter (fun sp => decide (sp.page = bl.page) &&
    (decide (2 / 5 < rect_iou bl.rect sp.rect) || point_in_rect (rect_center sp.rect) bl.rect))

/-- Embedding of the per-line body of derive_line_styles_from_spans: no match
leaves the line untouched; otherwise fontsize becomes the median of the
matched sizes, color the most frequent matched color, and font/flags are
copied from the first matched span. -/
def derive_line_style (spans : List Span) (ln : Line) : Line :=
  match lineMatchedSpans spans ln with
  | [] => ln
  | s0 :: srest =>
    { ln with
      fontsize := pyMedian ((s0 :: srest).map (fun s => s.fontsize)),
      color := mostFrequent s0.color (srest.map (fun s => s.color)),
      font := s0.font,
      flags := s0.flags }

/-- Embedding of textlayer.derive_line_styles_from_spans over a line list. -/
def derive_line_styles_from_spans (lines : List Line) (spans : List Span) : List Line :=
  lines.map (derive_line_style spans)

/-- Embedding of the per-block body of derive_block_styles_from_spans. -/
def derive_block_style (spans : List Span) (bl : Block) : Block :=
  match blockMatchedSpans spans bl with
  | [] => bl
  | s0 :: srest =>
    { bl with
      fontsize := pyMedian ((s0 :: srest).map (fun s => s.fontsize)),
      color := mostFrequent s0.color (srest.map (fun s => s.color)),
      font := s0.font,
      flags := s0.flags }

/-- Embedding of textlayer.derive_block_styles_from_spans over a block list. -/
def derive_block_styles_from_spans (blocks : List Block) (spans : List Span) : List Block :=
  blocks.map (derive_block_style spans)

/-- Claim C9 (counterexample): the claim asserts rect_iou(a,a) = 1 for every
rect with x0 ≤ x1 and y0 ≤ y1, but for the degenerate rect (0,0,0,0) the
intersection area is 0, so the function returns 0, not 1. -/
theorem rect_iou_self_degenerate_cex :
    (Rect.mk 0 0 0 0).x0 ≤ (Rect.mk 0 0 0 0).x1 ∧
    (Rect.mk 0 0 0 0).y0 ≤ (Rect.mk 0 0 0 0).y1 ∧
    rect_iou (Rect.mk 0 0 0 0) (Rect.mk 0 0 0 0) = 0 ∧
    rect_iou (Rect.mk 0 0 0 0) (Rect.mk 0 0 0 0) ≠ 1 := by
  norm_num [rect_iou]

/-- Claim C9 (amended): rect_iou is symmetric; it lies in [0,1] for rects with
x0 ≤ x1 and y0 ≤ y1; it equals 1 on identical ordered rects whose area is at
least the implementation's 1e-9 union clamp (degenerate and sub-1e-9-area
rects instead give values below 1, see the counterexample); and it is 0 on
rects with disjoint interiors. -/
theorem rect_iou_spec_amended :
    (∀ a b : Rect, rect_iou a b = rect_iou b a) ∧
    (∀ a b : Rect, a.x0 ≤ a.x1 → a.y0 ≤ a.y1 → b.x0 ≤ b.x1 → b.y0 ≤ b.y1 →
      0 ≤ rect_iou a b ∧ rect_iou a b ≤ 1) ∧
    (∀ a : Rect, a.x0 ≤ a.x1 → a.y0 ≤ a.y1 → 1 / 1000000000 ≤ rect_area a →
      rect_iou a a = 1) ∧
    (∀ a b : Rect, RectDisjoint a b → rect_iou a b = 0) := by
  refine ⟨?_, ?_, ?_, ?_⟩
  · intro a b
    simp only [rect_iou]
    rw [max_comm a.x0 b.x0, max_comm a.y0 b.y0, min_comm a.x1 b.x1, min_comm a.y1 b.y1,
      add_comm ((a.x1 - a.x0) * (a.y1 - a.y0)) ((b.x1 - b.x0) * (b.y1 - b.y0))]
  · intro a b hax hay hbx hby
    simp only [rect_iou]
    set ix0 := max a.x0 b.x0 with hix0
    set iy0 := max a.y0 b.y0 with hiy0
    set ix1 := min a.x1 b.x1 with hix1
    set iy1 := min a.y1 b.y1 with hiy1
    set w := max 0 (ix1 - ix0) with hw
    set h := max 0 (iy1 - iy0) with hh
    by_cases hint : w * h ≤ 0
    · simp [hint]
    · push_neg at hint
      simp only [if_neg (not_le.mpr hint)]
      have hw0 : 0 ≤ w := le_max_left 0 _
      have hh0 : 0 ≤ h := le_max_left 0 _
      have hwpos : 0 < w := by
        rcases lt_or_eq_of_le hw0 with h1 | h1
        · exact h1
        · exfalso; rw [← h1] at hint; simp at hint
      have hhpos : 0 < h := by
        rcases lt_or_eq_of_le hh0 with h1 | h1
        · exact h1
        · exfalso; rw [← h1] at hint; simp at hint
      have hwa : w ≤ a.x1 - a.x0 := by
        rw [hw]
        apply max_le
        · linarith
        · have h1 : ix1 ≤ a.x1 := min_le_left _ _
          have h2 : a.x0 ≤ ix0 := le_max_left _ _
          linarith
      have hha : h ≤ a.y1 - a.y0 := by
        rw [hh]
        apply max_le
        · linarith
        · have h1 : iy1 ≤ a.y1 := min_le_left _ _
          have h2 : a.y0 ≤ iy0 := le_max_left _ _
          linarith
      have hwb : w ≤ b.x1 - b.x0 := by
        rw [hw]
        apply max_le
        · linarith
        · have h1 : ix1 ≤ b.x1 := min_le_right _ _
          have h2 : b.x0 ≤ ix0 := le_max_right _ _
          linarith
      have hhb : h ≤ b.y1 - b.y0 := by
        rw [hh]
        apply max_le
        · linarith
        · have h1 : iy1 ≤ b.y1 := min_le_right _ _
          have h2 : b.y0 ≤ iy0 := le_max_right _ _
          linarith
      have harea_a : w * h ≤ (a.x1 - a.x0) * (a.y1 - a.y0) :=
        mul_le_mul hwa hha (le_of_lt hhpos) (by linarith)
      have harea_b : w * h ≤ (b.x1 - b.x0) * (b.y1 - b.y0) :=
        mul_le_mul hwb hhb (le_of_lt hhpos) (by linarith)
      have hupos : (0 : ℚ) < max (1 / 1000000000)
          ((a.x1 - a.x0) * (a.y1 - a.y0) + (b.x1 - b.x0) * (b.y1 - b.y0) - w * h) :=
        lt_max_of_lt_left (by norm_num)
      constructor
      · positivity
      · rw [div_le_one hupos]
        have : w * h ≤ (a.x1 - a.x0) * (a.y1 - a.y0) + (b.x1 - b.x0) * (b.y1 - b.y0) - w * h := by
          linarith
        exact le_max_of_le_right this
  · intro a hx hy harea
    have hpos : 0 < rect_area a := lt_of_lt_of_le (by norm_num) harea
    simp only [rect_iou, max_self, min_self]
    have hwx : max 0 (a.x1 - a.x0) = a.x1 - a.x0 := max_eq_right (by linarith)
    have hwy : max 0 (a.y1 - a.y0) = a.y1 - a.y0 := max_eq_right (by linarith)
    rw [hwx, hwy]
    have hint : ¬ (a.x1 - a.x0) * (a.y1 - a.y0) ≤ 0 := by
      rw [not_le]
      exact hpos
    rw [if_neg hint]
    have hm : max (1 / 1000000000)
        ((a.x1 - a.x0) * (a.y1 - a.y0) + (a.x1 - a.x0) * (a.y1 - a.y0) -
          (a.x1 - a.x0) * (a.y1 - a.y0)) = (a.x1 - a.x0) * (a.y1 - a.y0) := by
      rw [show (a.x1 - a.x0) * (a.y1 - a.y0) + (a.x1 - a.x0) * (a.y1 - a.y0) -
          (a.x1 - a.x0) * (a.y1 - a.y0) = (a.x1 - a.x0) * (a.y1 - a.y0) by ring]
      exact max_eq_right harea
    have hpos' : 0 < (a.x1 - a.x0) * (a.y1 - a.y0) := hpos
    rw [hm, div_self (ne_of_gt hpos')]
  · intro a b hdisj
    simp only [rect_iou]
    rcases hdisj with hx | hy
    · have hw : max 0 (min a.x1 b.x1 - max a.x0 b.x0) = 0 := max_eq_left (by linarith)
      rw [hw]
      simp
    · have hh : max 0 (min a.y1 b.y1 - max a.y0 b.y0) = 0 := max_eq_left (by linarith)
      rw [hh]
      simp

/-- Claim C9 witness: the amended theorem applied at the unit square and at a
pair of separated unit squares. -/
theorem rect_iou_spec_amended_witness :
    rect_iou (Rect.mk 0 0 1 1) (Rect.mk 0 0 1 1) = 1 ∧
    rect_iou (Rect.mk 0 0 1 1) (Rect.mk 5 5 6 6) = 0 := by
  constructor
  · exact rect_iou_spec_amended.2.2.1 (Rect.mk 0 0 1 1) (by norm_num) (by norm_num)
      (by norm_num [rect_area])
  · exact rect_iou_spec_amended.2.2.2 (Rect.mk 0 0 1 1) (Rect.mk 5 5 6 6)
      (by left; norm_num)

/-- Claim C6: for every Color tuple of length 1, 3 or 4 (components in [0,1],
per the data model), the fill is black exactly when the relative luminance
0.2126 R + 0.7152 G + 0.0722 B is at least 0.85, and white otherwise. -/
theorem pick_redact_fill_spec (c : List ℚ) (hlen : c.length = 1 ∨ c.length = 3 ∨ c.length = 4)
    (hrange : ∀ v ∈ c, 0 ≤ v ∧ v ≤ 1) :
    pick_redact_fill_for_color c =
      some (if 17 / 20 ≤ claimLuminance c then (0, 0, 0) else (1, 1, 1)) := by
  match c, hlen with
  | [v], _ =>
    simp [pick_redact_fill_for_color, _to_rgb, _rel_luminance, claimLuminance]
  | [r, g, b], _ =>
    have hr := hrange r (by simp)
    have hg := hrange g (by simp)
    have hb := hrange b (by simp)
    have cr : clamp01 r = r := by rw [clamp01, min_eq_right hr.2, max_eq_right hr.1]
    have cg : clamp01 g = g := by rw [clamp01, min_eq_right hg.2, max_eq_right hg.1]
    have cb : clamp01 b = b := by rw [clamp01, min_eq_right hb.2, max_eq_right hb.1]
    simp [pick_redact_fill_for_color, _to_rgb, _rel_luminance, claimLuminance, cr, cg, cb]
  | [r, g, b, a], _ =>
    have hr := hrange r (by simp)
    have hg := hrange g (by simp)
    have hb := hrange b (by simp)
    have cr : clamp01 r = r := by rw [clamp01, min_eq_right hr.2, max_eq_right hr.1]
    have cg : clamp01 g = g := by rw [clamp01, min_eq_right hg.2, max_eq_right hg.1]
    have cb : clamp01 b = b := by rw [clamp01, min_eq_right hb.2, max_eq_right hb.1]
    simp [pick_redact_fill_for_color, _to_rgb, _rel_luminance, claimLuminance, cr, cg, cb]

/-- Claim C6 witness: gray 0.92 gives black, gray 0.08 gives white, and the
0.85 boundary itself gives black. -/
theorem pick_redact_fill_spec_witness :
    pick_redact_fill_for_color [23 / 25] = some (0, 0, 0) ∧
    pick_redact_fill_for_color [2 / 25] = some (1, 1, 1) ∧
    pick_redact_fill_for_color [17 / 20] = some (0, 0, 0) := by
  refine ⟨?_, ?_, ?_⟩
  · rw [pick_redact_fill_spec [23 / 25] (by norm_num)
      (by intro v hv; rw [List.mem_singleton] at hv; subst hv; norm_num)]
    norm_num [claimLuminance]
  · rw [pick_redact_fill_spec [2 / 25] (by norm_num)
      (by intro v hv; rw [List.mem_singleton] at hv; subst hv; norm_num)]
    norm_num [claimLuminance]
  · rw [pick_redact_fill_spec [17 / 20] (by norm_num)
      (by intro v hv; rw [List.mem_singleton] at hv; subst hv; norm_num)]
    norm_num [claimLuminance]

/-- Claim C5: for a rect of positive width and height, when the measured
single-line width exceeds the rect width, the fitting size is
max(5, base_size * (rectWidth / measuredWidth) * 0.95). -/
theorem calculate_fitting_fontsize_spec (rect : Rect) (width base_size : ℚ)
    (hw : 0 < rect.x1 - rect.x0) (hh : 0 < rect.y1 - rect.y0)
    (hover : rect.x1 - rect.x0 < width) :
    calculate_fitting_fontsize rect (some width) base_size =
      max 5 (base_size * ((rect.x1 - rect.x0) / width) * (19 / 20)) := by
  simp only [calculate_fitting_fontsize]
  rw [if_neg (by rintro (h | h) <;> linarith)]
  rw [if_pos hover]

/-- Claim C5 witness: a rect of width 100 with text measuring 150 at base size
12 gives size 7.6 = 38/5, which is below 12, and the predicted width at the
returned size, 150 * (38/5) / 12, is at most 95. -/
theorem calculate_fitting_fontsize_spec_witness :
    calculate_fitting_fontsize (Rect.mk 0 0 100 10) (some 150) 12 = 38 / 5 ∧
    (38 : ℚ) / 5 < 12 ∧ (150 : ℚ) * ((38 / 5) / 12) ≤ 95 := by
  refine ⟨?_, by norm_num, by norm_num⟩
  rw [calculate_fitting_fontsize_spec (Rect.mk 0 0 100 10) 150 12 (by norm_num) (by norm_num)
    (by norm_num)]
  rw [max_def]
  norm_num

theorem fitLoop_zero (v : ℕ → ℚ → ℚ) (k : ℕ) (cur : ℚ) :
    fitLoop v 0 k cur = (false, [], cur) := rfl

theorem fitLoop_succ (v : ℕ → ℚ → ℚ) (n k : ℕ) (cur : ℚ) :
    fitLoop v (n + 1) k cur =
      if 0 ≤ v k (max cur 8) then (true, [cur], cur)
      else if cur * (9 / 10) < 3 then (false, [cur], cur * (9 / 10))
      else ((fitLoop v n (k + 1) (cur * (9 / 10))).1,
        cur :: (fitLoop v n (k + 1) (cur * (9 / 10))).2.1,
        (fitLoop v n (k + 1) (cur * (9 / 10))).2.2) := rfl

theorem fitLoop_length_le (v : ℕ → ℚ → ℚ) (fuel : ℕ) :
    ∀ (k : ℕ) (cur : ℚ), (fitLoop v fuel k cur).2.1.length ≤ fuel := by
  induction fuel with
  | zero => intro k cur; simp [fitLoop_zero]
  | succ n ih =>
    intro k cur
    rw [fitLoop_succ]
    by_cases hok : 0 ≤ v k (max cur 8)
    · rw [if_pos hok]; simp
    · rw [if_neg hok]
      by_cases hbr : cur * (9 / 10) < 3
      · rw [if_pos hbr]; simp
      · rw [if_neg hbr]
        simpa using ih (k + 1) (cur * (9 / 10))

theorem fitLoop_head (v : ℕ → ℚ → ℚ) (fuel : ℕ) :
    ∀ (k : ℕ) (cur : ℚ) (a : ℚ) (t : List ℚ),
      (fitLoop v fuel k cur).2.1 = a :: t → a = cur := by
  cases fuel with
  | zero => intro k cur a t h; simp [fitLoop_zero] at h
  | succ n =>
    intro k cur a t h
    rw [fitLoop_succ] at h
    by_cases hok : 0 ≤ v k (max cur 8)
    · rw [if_pos hok] at h; simp at h; exact h.1.symm
    · rw [if_neg hok] at h
      by_cases hbr : cur * (9 / 10) < 3
      · rw [if_pos hbr] at h; simp at h; exact h.1.symm
      · rw [if_neg hbr] at h; simp at h; exact h.1.symm

theorem fitLoop_ne_nil (v : ℕ → ℚ → ℚ) (fuel : ℕ) :
    ∀ (k : ℕ) (cur : ℚ), (fitLoop v fuel k cur).1 = true → (fitLoop v fuel k cur).2.1 ≠ [] := by
  cases fuel with
  | zero => intro k cur h; simp [fitLoop_zero] at h
  | succ n =>
    intro k cur _
    rw [fitLoop_succ]
    by_cases hok : 0 ≤ v k (max cur 8)
    · rw [if_pos hok]; simp
    · rw [if_neg hok]
      by_cases hbr : cur * (9 / 10) < 3
      · rw [if_pos hbr]; simp
      · rw [if_neg hbr]; simp

theorem fitLoop_chain (v : ℕ → ℚ → ℚ) (fuel : ℕ) :
    ∀ (k : ℕ) (cur : ℚ),
      List.Chain' (fun a b => b = a * (9 / 10)) (fitLoop v fuel k cur).2.1 := by
  induction fuel with
  | zero => intro k cur; simp [fitLoop_zero]
  | succ n ih =>
    intro k cur
    rw [fitLoop_succ]
    by_cases hok : 0 ≤ v k (max cur 8)
    · rw [if_pos hok]; simp
    · rw [if_neg hok]
      by_cases hbr : cur * (9 / 10) < 3
      · rw [if_pos hbr]; simp
      · rw [if_neg hbr]
        simp only
        rw [List.chain'_cons']
        refine ⟨?_, ih (k + 1) (cur * (9 / 10))⟩
        intro y hy
        cases ht : (fitLoop v n (k + 1) (cur * (9 / 10))).2.1 with
        | nil => rw [ht] at hy; simp at hy
        | cons a t =>
          rw [ht] at hy
          simp at hy
          rw [← hy]
          exact fitLoop_head v n (k + 1) (cur * (9 / 10)) a t ht

theorem fitLoop_tail_floor (v : ℕ → ℚ → ℚ) (fuel : ℕ) :
    ∀ (k : ℕ) (cur : ℚ), ∀ s ∈ (fitLoop v fuel k cur).2.1.tail, 3 ≤ s := by
  induction fuel with
  | zero => intro k cur s hs; simp [fitLoop_zero] at hs
  | succ n ih =>
    intro k cur s hs
    rw [fitLoop_succ] at hs
    by_cases hok : 0 ≤ v k (max cur 8)
    · rw [if_pos hok] at hs; simp at hs
    · rw [if_neg hok] at hs
      by_cases hbr : cur * (9 / 10) < 3
      · rw [if_pos hbr] at hs; simp at hs
      · rw [if_neg hbr] at hs
        simp only [List.tail_cons] at hs
        cases ht : (fitLoop v n (k + 1) (cur * (9 / 10))).2.1 with
        | nil => rw [ht] at hs; simp at hs
        | cons a t =>
          rw [ht] at hs
          rcases List.mem_cons.mp hs with h | h
          · have ha : a = cur * (9 / 10) := fitLoop_head v n (k + 1) (cur * (9 / 10)) a t ht
            rw [h, ha]
            linarith [not_lt.mp hbr]
          · have hmem := ih (k + 1) (cur * (9 / 10)) s
            rw [ht] at hmem
            exact hmem h

theorem fitLoop_false_verdicts (v : ℕ → ℚ → ℚ) (fuel : ℕ) :
    ∀ (k : ℕ) (cur : ℚ), (fitLoop v fuel k cur).1 = false →
      ∀ i, i < (fitLoop v fuel k cur).2.1.length →
        v (k + i) (max ((fitLoop v fuel k cur).2.1.getD i 0) 8) < 0 := by
  induction fuel with
  | zero => intro k cur _ i hi; simp [fitLoop_zero] at hi
  | succ n ih =>
    intro k cur hfalse i hi
    rw [fitLoop_succ] at hfalse hi ⊢
    by_cases hok : 0 ≤ v k (max cur 8)
    · rw [if_pos hok] at hfalse; simp at hfalse
    · rw [if_neg hok] at hfalse hi ⊢
      by_cases hbr : cur * (9 / 10) < 3
      · rw [if_pos hbr] at hfalse hi ⊢
        simp only [List.length_cons, List.length_nil] at hi
        have hi0 : i = 0 := by omega
        subst hi0
        simpa using not_le.mp hok
      · rw [if_neg hbr] at hfalse hi ⊢
        simp only at hfalse hi ⊢
        simp only [List.length_cons] at hi
        match i with
        | 0 => simpa using not_le.mp hok
        | j + 1 =>
          have hj : j < (fitLoop v n (k + 1) (cur * (9 / 10))).2.1.length := by omega
          have hres := ih (k + 1) (cur * (9 / 10)) hfalse j hj
          have harith : k + 1 + j = k + (j + 1) := by omega
          rw [harith] at hres
          simpa using hres

theorem fitLoop_true_last (v : ℕ → ℚ → ℚ) (fuel : ℕ) :
    ∀ (k : ℕ) (cur : ℚ), (fitLoop v fuel k cur).1 = true →
      0 ≤ v (k + ((fitLoop v fuel k cur).2.1.length - 1))
          (max ((fitLoop v fuel k cur).2.1.getD ((fitLoop v fuel k cur).2.1.length - 1) 0) 8) := by
  induction fuel with
  | zero => intro k cur h; simp [fitLoop_zero] at h
  | succ n ih =>
    intro k cur htrue
    rw [fitLoop_succ] at htrue ⊢
    by_cases hok : 0 ≤ v k (max cur 8)
    · rw [if_pos hok] at htrue ⊢
      simpa using hok
    · rw [if_neg hok] at htrue ⊢
      by_cases hbr : cur * (9 / 10) < 3
      · rw [if_pos hbr] at htrue; simp at htrue
      · rw [if_neg hbr] at htrue ⊢
        simp only at htrue ⊢
        have hne := fitLoop_ne_nil v n (k + 1) (cur * (9 / 10)) htrue
        cases ht : (fitLoop v n (k + 1) (cur * (9 / 10))).2.1 with
        | nil => exact absurd ht hne
        | cons a t =>
          have hrec := ih (k + 1) (cur * (9 / 10)) htrue
          rw [ht] at hrec
          simp only [List.length_cons, Nat.add_sub_cancel, List.getD_cons_succ] at hrec ⊢
          have harith : k + 1 + t.length = k + (t.length + 1) := by omega
          rw [harith] at hrec
          exact hrec

/-- Helper: with positive fuel the attempt list is nonempty. -/
theorem fitLoop_pos_ne_nil (v : ℕ → ℚ → ℚ) (n k : ℕ) (cur : ℚ) :
    (fitLoop v (n + 1) k cur).2.1 ≠ [] := by
  rw [fitLoop_succ]
  split_ifs <;> simp

/-- Claim C4: insert_text_fit makes at most 15 textbox attempts (and at least
one), starting from the width-fitted size; after each vertical-overflow
failure the next attempt uses 0.90 times the previous size, and every attempt
after the first is at a size of at least the 3pt hard floor; when every
attempt fails the function returns false together with an always-succeeding
unwrapped fallback draw at the padded rect's baseline-left origin at a safe
size of at least 8pt, and when some attempt fits it returns true with no
fallback draw.  The function is total, returning a fit/no-fit boolean for
every renderer behaviour. -/
theorem insert_text_fit_spec (v : ℕ → ℚ → ℚ) (rect : Rect) (measured : Option ℚ)
    (base_size : ℚ) :
    (insert_text_fit v rect measured base_size).2.1.length ≤ 15 ∧
    1 ≤ (insert_text_fit v rect measured base_size).2.1.length ∧
    (insert_text_fit v rect measured base_size).2.1.head? =
      some (calculate_fitting_fontsize (padRect rect (fit_pad base_size)) measured
        (base_size * (21 / 20))) ∧
    List.Chain' (fun a b => b = a * (9 / 10)) (insert_text_fit v rect measured base_size).2.1 ∧
    (∀ s ∈ (insert_text_fit v rect measured base_size).2.1.tail, 3 ≤ s) ∧
    ((insert_text_fit v rect measured base_size).1 = false →
      (∀ i, i < (insert_text_fit v rect measured base_size).2.1.length →
        v i (max ((insert_text_fit v rect measured base_size).2.1.getD i 0) 8) < 0) ∧
      ∃ safe : ℚ, 8 ≤ safe ∧
        (insert_text_fit v rect measured base_size).2.2 =
          some (((padRect rect (fit_pad base_size)).x0,
            (padRect rect (fit_pad base_size)).y0 + safe), safe)) ∧
    ((insert_text_fit v rect measured base_size).1 = true →
      (insert_text_fit v rect measured base_size).2.2 = none) := by
  set init := calculate_fitting_fontsize (padRect rect (fit_pad base_size)) measured
    (base_size * (21 / 20)) with hinit
  have key : insert_text_fit v rect measured base_size =
      if (fitLoop v 15 0 init).1 = true then (true, (fitLoop v 15 0 init).2.1, none)
      else (false, (fitLoop v 15 0 init).2.1,
        some (((padRect rect (fit_pad base_size)).x0,
          (padRect rect (fit_pad base_size)).y0 + max (fitLoop v 15 0 init).2.2 8),
          max (fitLoop v 15 0 init).2.2 8)) := rfl
  have hne : (fitLoop v 15 0 init).2.1 ≠ [] := fitLoop_pos_ne_nil v 14 0 init
  have hhead : (fitLoop v 15 0 init).2.1.head? = some init := by
    cases ht : (fitLoop v 15 0 init).2.1 with
    | nil => exact absurd ht hne
    | cons a t =>
      have := fitLoop_head v 15 0 init a t ht
      simp [this]
  by_cases hF : (fitLoop v 15 0 init).1 = true
  · rw [key, if_pos hF]
    refine ⟨?_, ?_, ?_, ?_, ?_, ?_, ?_⟩
    · simpa using fitLoop_length_le v 15 0 init
    · simpa using List.length_pos.mpr hne
    · simpa using hhead
    · simpa using fitLoop_chain v 15 0 init
    · simpa using fitLoop_tail_floor v 15 0 init
    · intro hcontra; simp at hcontra
    · intro _; rfl
  · have hFb : (fitLoop v 15 0 init).1 = false := by
      revert hF; cases (fitLoop v 15 0 init).1 <;> simp
    rw [key, if_neg hF]
    refine ⟨?_, ?_, ?_, ?_, ?_, ?_, ?_⟩
    · simpa using fitLoop_length_le v 15 0 init
    · simpa using List.length_pos.mpr hne
    · simpa using hhead
    · simpa using fitLoop_chain v 15 0 init
    · simpa using fitLoop_tail_floor v 15 0 init
    · intro _
      constructor
      · intro i hi
        simp only at hi
        have := fitLoop_false_verdicts v 15 0 init hFb i (by simpa using hi)
        simpa using this
      · exact ⟨max (fitLoop v 15 0 init).2.2 8, le_max_right _ _, rfl⟩
    · intro hcontra; simp at hcontra

/-- Claim C4 witness: with a renderer that always reports overflow and base
size 2, the width-fitted initial size is 2.1, the single shrink 1.89 falls
below the 3pt floor after one attempt, and the function returns false with
the fallback unwrapped draw at the padded origin at safe size 8. -/
theorem insert_text_fit_spec_witness :
    (insert_text_fit (fun _ _ => (-1 : ℚ)) (Rect.mk 0 0 10 10) none 2).1 = false ∧
    ∃ safe : ℚ, 8 ≤ safe ∧
      (insert_text_fit (fun _ _ => (-1 : ℚ)) (Rect.mk 0 0 10 10) none 2).2.2 =
        some (((padRect (Rect.mk 0 0 10 10) (fit_pad 2)).x0,
          (padRect (Rect.mk 0 0 10 10) (fit_pad 2)).y0 + safe), safe) := by
  have hinitval : calculate_fitting_fontsize (padRect (Rect.mk 0 0 10 10) (fit_pad 2)) none
      (2 * (21 / 20)) = 21 / 10 := by
    norm_num [calculate_fitting_fontsize, padRect, fit_pad, max_def]
  have hloopval : fitLoop (fun _ _ => (-1 : ℚ)) 15 0 (21 / 10) = (false, [21 / 10], 189 / 100) := by
    rw [show (15 : ℕ) = 14 + 1 from rfl, fitLoop_succ]
    norm_num
  have hfalse : (insert_text_fit (fun _ _ => (-1 : ℚ)) (Rect.mk 0 0 10 10) none 2).1 = false := by
    simp only [insert_text_fit, hinitval, hloopval]
    simp
  exact ⟨hfalse,
    ((insert_text_fit_spec (fun _ _ => (-1 : ℚ)) (Rect.mk 0 0 10 10) none 2).2.2.2.2.2.1
      hfalse).2⟩

theorem argmaxIoU_mem (r : Rect) :
    ∀ (rest : List OrigSpan) (best : OrigSpan), argmaxIoU r best rest ∈ best :: rest := by
  intro rest
  induction rest with
  | nil => intro best; simp [argmaxIoU]
  | cons c rest ih =>
    intro best
    rw [argmaxIoU]
    split
    · have := ih c
      rcases List.mem_cons.mp this with h | h
      · rw [h]; simp
      · simp [h]
    · have := ih best
      rcases List.mem_cons.mp this with h | h
      · rw [h]; simp
      · simp [h]

theorem argmaxIoU_le (r : Rect) :
    ∀ (rest : List OrigSpan) (best : OrigSpan) (c : OrigSpan), c ∈ best :: rest →
      rect_iou r c.bbox ≤ rect_iou r (argmaxIoU r best rest).bbox := by
  intro rest
  induction rest with
  | nil =>
    intro best c hc
    rcases List.mem_cons.mp hc with h | h
    · rw [h]; simp [argmaxIoU]
    · simp at h
  | cons d rest ih =>
    intro best c hc
    rw [argmaxIoU]
    split
    · rename_i hlt
      rcases List.mem_cons.mp hc with h | h
      · rw [h]
        exact le_trans (le_of_lt hlt) (ih d d (by simp))
      · rcases List.mem_cons.mp h with h2 | h2
        · rw [h2]; exact ih d d (by simp)
        · exact ih d c (by simp [h2])
    · rename_i hge
      rcases List.mem_cons.mp hc with h | h
      · rw [h]; exact ih best best (by simp)
      · rcases List.mem_cons.mp h with h2 | h2
        · rw [h2]
          exact le_trans (not_lt.mp hge) (ih best best (by simp))
        · exact ih best c (by simp [h2])

theorem minBy_mem {α : Type} (f : α → ℚ) :
    ∀ (rest : List α) (best : α), minBy f best rest ∈ best :: rest := by
  intro rest
  induction rest with
  | nil => intro best; simp [minBy]
  | cons c rest ih =>
    intro best
    rw [minBy]
    split
    · have := ih c
      rcases List.mem_cons.mp this with h | h
      · rw [h]; simp
      · simp [h]
    · have := ih best
      rcases List.mem_cons.mp this with h | h
      · rw [h]; simp
      · simp [h]

theorem minBy_le {α : Type} (f : α → ℚ) :
    ∀ (rest : List α) (best : α) (c : α), c ∈ best :: rest →
      f (minBy f best rest) ≤ f c := by
  intro rest
  induction rest with
  | nil =>
    intro best c hc
    rcases List.mem_cons.mp hc with h | h
    · rw [h]; simp [minBy]
    · simp at h
  | cons d rest ih =>
    intro best c hc
    rw [minBy]
    split
    · rename_i hlt
      rcases List.mem_cons.mp hc with h | h
      · rw [h]
        exact le_trans (ih d d (by simp)) (le_of_lt hlt)
      · rcases List.mem_cons.mp h with h2 | h2
        · rw [h2]; exact ih d d (by simp)
        · exact ih d c (by simp [h2])
    · rename_i hge
      rcases List.mem_cons.mp hc with h | h
      · rw [h]; exact ih best best (by simp)
      · rcases List.mem_cons.mp h with h2 | h2
        · rw [h2]
          exact le_trans (ih best best (by simp)) (not_lt.mp hge)
        · exact ih best c (by simp [h2])

/-- Claim C1: with a non-empty candidate list, transfer_style_from_original
assigns a span's style by the exact four-rung ladder, first match wins:
(1) a maximum-IoU candidate with IoU at least 0.80 is adopted; (2) otherwise,
if candidates contain the span rect's centroid, the smallest-area such
candidate is adopted; (3) otherwise a maximum-IoU candidate with IoU at least
0.10 is adopted; (4) otherwise the candidate at minimum centroid-to-centroid
Euclidean distance is adopted. -/
theorem transfer_style_ladder (sp : Span) (c0 : OrigSpan) (rest : List OrigSpan) :
    ((∃ b ∈ c0 :: rest, (∀ c ∈ c0 :: rest, rect_iou sp.rect c.bbox ≤ rect_iou sp.rect b.bbox) ∧
        4 / 5 ≤ rect_iou sp.rect b.bbox) →
      ∃ b ∈ c0 :: rest, (∀ c ∈ c0 :: rest, rect_iou sp.rect c.bbox ≤ rect_iou sp.rect b.bbox) ∧
        4 / 5 ≤ rect_iou sp.rect b.bbox ∧
        transfer_style_span (4 / 5) (1 / 10) (c0 :: rest) sp = adoptStyle sp b) ∧
    ((∀ c ∈ c0 :: rest, rect_iou sp.rect c.bbox < 4 / 5) →
      (∃ c ∈ c0 :: rest, point_in_rect (rect_center sp.rect) c.bbox = true) →
      ∃ c ∈ c0 :: rest, point_in_rect (rect_center sp.rect) c.bbox = true ∧
        (∀ d ∈ c0 :: rest, point_in_rect (rect_center sp.rect) d.bbox = true →
          candArea c ≤ candArea d) ∧
        transfer_style_span (4 / 5) (1 / 10) (c0 :: rest) sp = adoptStyle sp c) ∧
    ((∀ c ∈ c0 :: rest, point_in_rect (rect_center sp.rect) c.bbox = false) →
      (∃ b ∈ c0 :: rest, (∀ c ∈ c0 :: rest, rect_iou sp.rect c.bbox ≤ rect_iou sp.rect b.bbox) ∧
        1 / 10 ≤ rect_iou sp.rect b.bbox ∧ rect_iou sp.rect b.bbox < 4 / 5) →
      ∃ b ∈ c0 :: rest, (∀ c ∈ c0 :: rest, rect_iou sp.rect c.bbox ≤ rect_iou sp.rect b.bbox) ∧
        1 / 10 ≤ rect_iou sp.rect b.bbox ∧
        transfer_style_span (4 / 5) (1 / 10) (c0 :: rest) sp = adoptStyle sp b) ∧
    ((∀ c ∈ c0 :: rest, rect_iou sp.rect c.bbox < 1 / 10) →
      (∀ c ∈ c0 :: rest, point_in_rect (rect_center sp.rect) c.bbox = false) →
      ∃ c ∈ c0 :: rest,
        (∀ d ∈ c0 :: rest, center_dist sp.rect c.bbox ≤ center_dist sp.rect d.bbox) ∧
        transfer_style_span (4 / 5) (1 / 10) (c0 :: rest) sp = adoptStyle sp c) := by
  have hBmem := argmaxIoU_mem sp.rect rest c0
  have hBmax := argmaxIoU_le sp.rect rest c0
  refine ⟨?_, ?_, ?_, ?_⟩
  · rintro ⟨b, hb, hmax, hge⟩
    refine ⟨argmaxIoU sp.rect c0 rest, hBmem, fun c hc => hBmax c hc, ?_, ?_⟩
    · exact le_trans hge (hBmax b hb)
    · simp only [transfer_style_span]
      rw [if_pos (le_trans hge (hBmax b hb))]
  · intro hlt hex
    have hBlt : rect_iou sp.rect (argmaxIoU sp.rect c0 rest).bbox < 4 / 5 := hlt _ hBmem
    obtain ⟨c, hc, hcin⟩ := hex
    have hfil_ne : (c0 :: rest).filter
        (fun c => point_in_rect (rect_center sp.rect) c.bbox) ≠ [] := by
      intro hnil
      have : c ∈ (c0 :: rest).filter (fun c => point_in_rect (rect_center sp.rect) c.bbox) :=
        List.mem_filter.mpr ⟨hc, hcin⟩
      rw [hnil] at this
      simp at this
    cases hfil : (c0 :: rest).filter (fun c => point_in_rect (rect_center sp.rect) c.bbox) with
    | nil => exact absurd hfil hfil_ne
    | cons i0 irest =>
      refine ⟨minBy candArea i0 irest, ?_, ?_, ?_, ?_⟩
      · have : minBy candArea i0 irest ∈ i0 :: irest := minBy_mem candArea irest i0
        rw [← hfil] at this
        exact List.mem_of_mem_filter this
      · have : minBy candArea i0 irest ∈ i0 :: irest := minBy_mem candArea irest i0
        rw [← hfil] at this
        exact (List.mem_filter.mp this).2
      · intro d hd hdin
        have : d ∈ i0 :: irest := by
          rw [← hfil]
          exact List.mem_filter.mpr ⟨hd, hdin⟩
        exact minBy_le candArea irest i0 d this
      · simp only [transfer_style_span]
        rw [if_neg (not_le.mpr hBlt), hfil]
  · intro hnone hex
    obtain ⟨b, hb, hmax, hge, hlt⟩ := hex
    have hBeq : rect_iou sp.rect (argmaxIoU sp.rect c0 rest).bbox = rect_iou sp.rect b.bbox :=
      le_antisymm (hmax _ hBmem) (hBmax b hb)
    have hfil : (c0 :: rest).filter
        (fun c => point_in_rect (rect_center sp.rect) c.bbox) = [] := by
      apply List.filter_eq_nil_iff.mpr
      intro c hc
      rw [hnone c hc]
      simp
    refine ⟨argmaxIoU sp.rect c0 rest, hBmem, fun c hc => hBmax c hc, ?_, ?_⟩
    · rw [hBeq]; exact hge
    · simp only [transfer_style_span]
      rw [if_neg (not_le.mpr (by rw [hBeq]; exact hlt)), hfil]
      rw [if_pos (by rw [hBeq]; exact hge)]
  · intro hlt hnone
    have hBlt : rect_iou sp.rect (argmaxIoU sp.rect c0 rest).bbox < 1 / 10 := hlt _ hBmem
    have hfil : (c0 :: rest).filter
        (fun c => point_in_rect (rect_center sp.rect) c.bbox) = [] := by
      apply List.filter_eq_nil_iff.mpr
      intro c hc
      rw [hnone c hc]
      simp
    refine ⟨minBy (fun c => center_dist_sq sp.rect c.bbox) c0 rest,
      minBy_mem _ rest c0, ?_, ?_⟩
    · intro d hd
      have hsq := minBy_le (fun c => center_dist_sq sp.rect c.bbox) rest c0 d hd
      unfold center_dist
      exact Real.sqrt_le_sqrt (by exact_mod_cast hsq)
    · simp only [transfer_style_span]
      rw [if_neg (not_le.mpr (lt_trans hBlt (by norm_num))), hfil]
      rw [if_neg (not_le.mpr hBlt)]

/-- Claim C1 witness: a span whose rect coincides with the single candidate's
bbox takes rung 1 (IoU = 1 at least 0.80) and adopts that candidate's style. -/
theorem transfer_style_ladder_witness :
    ∃ b ∈ [OrigSpan.mk (Rect.mk 0 0 1 1) [1] 20 "Arial" 1],
      (∀ c ∈ [OrigSpan.mk (Rect.mk 0 0 1 1) [1] 20 "Arial" 1],
        rect_iou (Rect.mk 0 0 1 1) c.bbox ≤ rect_iou (Rect.mk 0 0 1 1) b.bbox) ∧
      4 / 5 ≤ rect_iou (Rect.mk 0 0 1 1) b.bbox ∧
      transfer_style_span (4 / 5) (1 / 10)
          [OrigSpan.mk (Rect.mk 0 0 1 1) [1] 20 "Arial" 1]
          (Span.mk 0 (Rect.mk 0 0 1 1) "t" 10 [0] "helv" 0) =
        adoptStyle (Span.mk 0 (Rect.mk 0 0 1 1) "t" 10 [0] "helv" 0) b := by
  have hiou : rect_iou (Rect.mk 0 0 1 1) (Rect.mk 0 0 1 1) = 1 := by
    norm_num [rect_iou, max_def, min_def]
  exact (transfer_style_ladder (Span.mk 0 (Rect.mk 0 0 1 1) "t" 10 [0] "helv" 0)
    (OrigSpan.mk (Rect.mk 0 0 1 1) [1] 20 "Arial" 1) []).1
    ⟨OrigSpan.mk (Rect.mk 0 0 1 1) [1] 20 "Arial" 1, by simp,
      by intro c hc; simp at hc; rw [hc], by rw [hiou]; norm_num⟩

/-- Claim C8: a span whose page has an empty candidate list in the style index
is left entirely unchanged by transfer_style_from_original: no style is
invented. -/
theorem transfer_style_empty_candidates (orig_index : ℤ → List OrigSpan) (sp : Span)
    (h : orig_index sp.page = []) :
    transfer_style_span (4 / 5) (1 / 10) (orig_index sp.page) sp = sp ∧
    transfer_style_from_original [sp] orig_index = [sp] := by
  constructor
  · rw [h]
    rfl
  · simp only [transfer_style_from_original, List.map_cons, List.map_nil, h]
    rfl

/-- Claim C8 witness: the empty index leaves a concrete span unchanged. -/
theorem transfer_style_empty_candidates_witness :
    transfer_style_from_original [Span.mk 0 (Rect.mk 0 0 1 1) "t" 10 [0] "helv" 0]
      (fun _ => []) = [Span.mk 0 (Rect.mk 0 0 1 1) "t" 10 [0] "helv" 0] :=
  (transfer_style_empty_candidates (fun _ => [])
    (Span.mk 0 (Rect.mk 0 0 1 1) "t" 10 [0] "helv" 0) rfl).2

/-- Claim C7: when the translator's translate call raises, translate_text
returns the original text unchanged and propagates nothing; the
GoogleTranslator provider likewise returns its input text on any internal
error. -/
theorem translate_text_error_isolated (text src dest : String)
    (tr : String → String → String → Except String String)
    (service : String → String → String → Except String GoogleResult)
    (e e2 : String)
    (h : tr text src dest = Except.error e)
    (h2 : service text (if src ≠ "auto" then src else "auto") dest = Except.error e2) :
    translate_text text src dest (some tr) = text ∧
    googleTranslate service text src dest = text := by
  constructor
  · simp only [translate_text]
    rw [h]
  · simp only [googleTranslate]
    rw [h2]

/-- Claim C7 witness: concrete always-raising translators leave a Hindi-to-
English unit untouched. -/
theorem translate_text_error_isolated_witness :
    translate_text "namaste ji" "hi" "en" (some (fun _ _ _ => Except.error "timeout")) =
      "namaste ji" ∧
    googleTranslate (fun _ _ _ => Except.error "http 429") "namaste ji" "hi" "en" =
      "namaste ji" :=
  translate_text_error_isolated "namaste ji" "hi" "en"
    (fun _ _ _ => Except.error "timeout") (fun _ _ _ => Except.error "http 429")
    "timeout" "http 429" rfl rfl

theorem mergeBandsRev_spec (rest : List (ℚ × ℚ)) :
    ∀ (acc : List (ℚ × ℚ)) (c0 c1 : ℚ),
      (mergeBandsRev 8 ((c0, c1) :: acc) rest).reverse =
        acc.reverse ++ specMergeColumns (c0, c1) rest := by
  induction rest with
  | nil =>
    intro acc c0 c1
    simp [mergeBandsRev, specMergeColumns]
  | cons p rest ih =>
    intro acc c0 c1
    obtain ⟨x0, x1⟩ := p
    rw [mergeBandsRev]
    by_cases hgap : c1 - 8 < x0
    · rw [if_pos hgap, specMergeColumns, if_neg (not_le.mpr hgap)]
      rw [ih ((c0, c1) :: acc) x0 x1]
      simp
    · rw [if_neg hgap, specMergeColumns, if_pos (not_lt.mp hgap)]
      exact ih acc c0 (max c1 x1)

theorem specMergeColumns_sorted (bs : List (ℚ × ℚ)) :
    ∀ (c0 c1 : ℚ), (∀ q ∈ bs, c0 ≤ q.1) →
      List.Pairwise (fun p q : ℚ × ℚ => p.1 ≤ q.1) bs →
      List.Chain' (fun p q : ℚ × ℚ => p.1 ≤ q.1) (specMergeColumns (c0, c1) bs) ∧
      ∀ r ∈ specMergeColumns (c0, c1) bs, c0 ≤ r.1 := by
  induction bs with
  | nil =>
    intro c0 c1 _ _
    simp [specMergeColumns]
  | cons p rest ih =>
    intro c0 c1 hle hpw
    obtain ⟨x0, x1⟩ := p
    have hc0x0 : c0 ≤ x0 := hle (x0, x1) (by simp)
    have hrest := (List.pairwise_cons.mp hpw).2
    have hx0rest : ∀ q ∈ rest, x0 ≤ q.1 := fun q hq => (List.pairwise_cons.mp hpw).1 q hq
    rw [specMergeColumns]
    by_cases hmerge : x0 ≤ c1 - 8
    · rw [if_pos hmerge]
      exact ih c0 (max c1 x1) (fun q hq => le_trans hc0x0 (hx0rest q hq)) hrest
    · rw [if_neg hmerge]
      obtain ⟨hchain, hge⟩ := ih x0 x1 hx0rest hrest
      constructor
      · rw [List.chain'_cons']
        refine ⟨?_, hchain⟩
        intro y hy
        have : y ∈ specMergeColumns (x0, x1) rest := by
          cases hs : specMergeColumns (x0, x1) rest with
          | nil => rw [hs] at hy; simp at hy
          | cons a t =>
            rw [hs] at hy
            simp at hy
            rw [← hy]
            exact List.mem_cons_self a t
        exact le_trans hc0x0 (hge y this)
      · intro r hr
        rcases List.mem_cons.mp hr with h | h
        · rw [h]
        · exact le_trans hc0x0 (hge r h)

/-- Claim C2 (counterexample): the claim says two segment x-ranges whose gap is
at most 8pt are merged into one band, but for bands (0,10) and (12,20) with a
2pt gap build_columns keeps them separate and returns 2 columns. -/
theorem build_columns_gap_cex :
    build_columns (HybridBlock.mk 0 (Rect.mk 0 0 20 10)
        [HybridLine.mk (Rect.mk 0 0 20 1) "r1 r2"
          [HybridSegment.mk (Rect.mk 0 0 10 1) "r1" [10],
           HybridSegment.mk (Rect.mk 12 0 20 1) "r2" [10]]]
        "r1 r2" (23 / 2) [0]) = [(0, 10), (12, 20)] ∧
    (build_columns (HybridBlock.mk 0 (Rect.mk 0 0 20 10)
        [HybridLine.mk (Rect.mk 0 0 20 1) "r1 r2"
          [HybridSegment.mk (Rect.mk 0 0 10 1) "r1" [10],
           HybridSegment.mk (Rect.mk 12 0 20 1) "r2" [10]]]
        "r1 r2" (23 / 2) [0])).length ≠ 1 := by
  have hbands : allBands (HybridBlock.mk 0 (Rect.mk 0 0 20 10)
      [HybridLine.mk (Rect.mk 0 0 20 1) "r1 r2"
        [HybridSegment.mk (Rect.mk 0 0 10 1) "r1" [10],
         HybridSegment.mk (Rect.mk 12 0 20 1) "r2" [10]]]
      "r1 r2" (23 / 2) [0]) = [(0, 10), (12, 20)] := by
    simp [allBands]
  have hsort : sortPairs [((0 : ℚ), (10 : ℚ)), (12, 20)] = [(0, 10), (12, 20)] := by
    norm_num [sortPairs, List.insertionSort, List.orderedInsert, bandLe]
  have hmain : build_columns (HybridBlock.mk 0 (Rect.mk 0 0 20 10)
      [HybridLine.mk (Rect.mk 0 0 20 1) "r1 r2"
        [HybridSegment.mk (Rect.mk 0 0 10 1) "r1" [10],
         HybridSegment.mk (Rect.mk 12 0 20 1) "r2" [10]]]
      "r1 r2" (23 / 2) [0]) = [(0, 10), (12, 20)] := by
    rw [build_columns, hbands]
    rw [if_neg (by simp)]
    rw [hsort]
    rw [show mergeBandsRev 8 [] [((0 : ℚ), (10 : ℚ)), (12, 20)] =
        mergeBandsRev 8 [(0, 10)] [(12, 20)] from rfl]
    rw [mergeBandsRev]
    rw [if_pos (by norm_num)]
    rw [mergeBandsRev]
    simp
  refine ⟨hmain, ?_⟩
  rw [hmain]
  simp

/-- Claim C2 (amended): build_columns collects all Segment x-ranges, sorts
them lexicographically, and merges a range into the current band exactly when
it overlaps the band by at least 8pt (Python: new band when x0 >
last_x1 - 8.0), not when the gap between them is at most 8pt; the resulting
bands are sorted left-to-right, two bands separated by a 20pt gap still yield
2 columns, and a block with no Segments yields one column spanning the block
rect's x-range. -/
theorem build_columns_spec (hb : HybridBlock) :
    (allBands hb = [] → build_columns hb = [(hb.rect.x0, hb.rect.x1)]) ∧
    (∀ b bs, sortPairs (allBands hb) = b :: bs →
      build_columns hb = specMergeColumns b bs) ∧
    List.Chain' (fun p q : ℚ × ℚ => p.1 ≤ q.1) (build_columns hb) := by
  have hbridge : ∀ b bs, sortPairs (allBands hb) = b :: bs →
      build_columns hb = specMergeColumns b bs := by
    intro b bs hsort
    have hne : ¬ (allBands hb).isEmpty = true := by
      intro hemp
      rw [List.isEmpty_iff] at hemp
      rw [hemp] at hsort
      simp [sortPairs, List.insertionSort] at hsort
    rw [build_columns, if_neg hne, hsort]
    obtain ⟨b0, b1⟩ := b
    rw [show mergeBandsRev 8 [] ((b0, b1) :: bs) = mergeBandsRev 8 [(b0, b1)] bs from rfl]
    rw [mergeBandsRev_spec bs [] b0 b1]
    simp
  refine ⟨?_, hbridge, ?_⟩
  · intro hnil
    rw [build_columns, if_pos (by rw [hnil]; rfl)]
  · cases hsort : sortPairs (allBands hb) with
    | nil =>
      have hnil : allBands hb = [] := by
        have hlen : (sortPairs (allBands hb)).length = 0 := by rw [hsort]; rfl
        rw [sortPairs, List.length_insertionSort] at hlen
        exact List.length_eq_zero.mp hlen
      rw [build_columns, if_pos (by rw [hnil]; rfl)]
      simp
    | cons b bs =>
      rw [hbridge b bs hsort]
      obtain ⟨b0, b1⟩ := b
      have hsorted : List.Pairwise bandLe (sortPairs (allBands hb)) :=
        List.sorted_insertionSort bandLe (allBands hb)
      rw [hsort] at hsorted
      have hpw := List.pairwise_cons.mp hsorted
      refine (specMergeColumns_sorted bs b0 b1 ?_ ?_).1
      · intro q hq
        rcases hpw.1 q hq with h | ⟨h, _⟩
        · exact le_of_lt h
        · exact le_of_eq h
      · exact hpw.2.imp (fun hpq => by
          rcases hpq with h | ⟨h, _⟩
          · exact le_of_lt h
          · exact le_of_eq h)

/-- Claim C2 witness: a block with no segments returns its rect x-range as the
single column, and two bands separated by a 20pt gap yield 2 columns. -/
theorem build_columns_spec_witness :
    build_columns (HybridBlock.mk 0 (Rect.mk 3 0 17 10) [] "" (23 / 2) [0]) = [(3, 17)] ∧
    build_columns (HybridBlock.mk 0 (Rect.mk 0 0 40 10)
        [HybridLine.mk (Rect.mk 0 0 40 1) "a b"
          [HybridSegment.mk (Rect.mk 0 0 10 1) "a" [10],
           HybridSegment.mk (Rect.mk 30 0 40 1) "b" [10]]]
        "a b" (23 / 2) [0]) = [(0, 10), (30, 40)] := by
  constructor
  · exact (build_columns_spec (HybridBlock.mk 0 (Rect.mk 3 0 17 10) [] "" (23 / 2) [0])).1 rfl
  · have hsort : sortPairs (allBands (HybridBlock.mk 0 (Rect.mk 0 0 40 10)
        [HybridLine.mk (Rect.mk 0 0 40 1) "a b"
          [HybridSegment.mk (Rect.mk 0 0 10 1) "a" [10],
           HybridSegment.mk (Rect.mk 30 0 40 1) "b" [10]]]
        "a b" (23 / 2) [0])) = [((0 : ℚ), (10 : ℚ)), (30, 40)] := by
      norm_num [allBands, sortPairs, List.insertionSort, List.orderedInsert, bandLe]
    rw [(build_columns_spec _).2.1 ((0 : ℚ), (10 : ℚ)) [((30 : ℚ), (40 : ℚ))] hsort]
    rw [specMergeColumns]
    rw [if_neg (by norm_num)]
    rw [specMergeColumns]

/-- Claim C10 (code bug): on a one-page document whose single raw block has a
single line containing the span "hi", extract_blocks_with_segments returns
two identical HybridBlocks for that one raw block, because the source
duplicates the append (hybrid.py lines 106-113 repeat lines 106-109
verbatim), contradicting both the claim and the function's own docstring
("One HybridBlock per raw PDF block"). -/
theorem extract_blocks_duplicate_bug :
    (extract_blocks_with_segments [RawPage.mk [RawBlock.mk (some (Rect.mk 0 0 100 10))
      (some [RawLine.mk [RawSpan.mk (some "hi") [] (some (Rect.mk 0 0 10 10))
        (some 12)]])]]).length = 2 ∧
    (extract_blocks_with_segments [RawPage.mk [RawBlock.mk (some (Rect.mk 0 0 100 10))
      (some [RawLine.mk [RawSpan.mk (some "hi") [] (some (Rect.mk 0 0 10 10))
        (some 12)]])]])[0]? =
    (extract_blocks_with_segments [RawPage.mk [RawBlock.mk (some (Rect.mk 0 0 100 10))
      (some [RawLine.mk [RawSpan.mk (some "hi") [] (some (Rect.mk 0 0 10 10))
        (some 12)]])]])[1]? := by
  constructor
  · rfl
  · rfl

theorem bump_keys {K : Type} [DecidableEq K] (k : K) :
    ∀ l : List (K × ℕ), (bump k l).map Prod.fst =
      if k ∈ l.map Prod.fst then l.map Prod.fst else l.map Prod.fst ++ [k] := by
  intro l
  induction l with
  | nil => simp [bump]
  | cons p rest ih =>
    obtain ⟨k2, n⟩ := p
    rw [bump]
    by_cases hk : k2 = k
    · rw [if_pos hk]
      simp [hk]
    · rw [if_neg hk]
      simp only [List.map_cons]
      rw [ih]
      by_cases hmem : k ∈ rest.map Prod.fst
      · rw [if_pos hmem, if_pos (by simp [hmem])]
      · rw [if_neg hmem, if_neg (by
          simp only [List.mem_cons]
          rintro (h | h)
          · exact hk h.symm
          · exact hmem h)]
        simp

theorem bump_lookup {K : Type} [DecidableEq K] (k k2 : K) :
    ∀ l : List (K × ℕ), lookupCount k2 (bump k l) =
      lookupCount k2 l + (if k2 = k then 1 else 0) := by
  intro l
  induction l with
  | nil =>
    simp only [bump, lookupCount]
    by_cases h : k = k2
    · rw [if_pos h, if_pos h.symm]
    · rw [if_neg h, if_neg (fun h2 => h h2.symm)]
  | cons p rest ih =>
    obtain ⟨ka, n⟩ := p
    rw [bump]
    by_cases hka : ka = k
    · rw [if_pos hka, lookupCount, lookupCount]
      by_cases h2 : ka = k2
      · rw [if_pos h2, if_pos h2, if_pos (by rw [← hka]; exact h2.symm)]
      · rw [if_neg h2, if_neg h2, if_neg (by rw [← hka]; exact fun h => h2 h.symm)]
        simp
    · rw [if_neg hka, lookupCount, lookupCount]
      by_cases h2 : ka = k2
      · rw [if_pos h2, if_pos h2, if_neg (by rw [← h2]; exact fun h => hka h)]
        simp
      · rw [if_neg h2, if_neg h2]
        exact ih

theorem foldl_bump_lookup {K : Type} [DecidableEq K] (k : K) :
    ∀ (l : List K) (acc : List (K × ℕ)),
      lookupCount k (l.foldl (fun a c => bump c a) acc) =
        lookupCount k acc + countOcc k l := by
  intro l
  induction l with
  | nil => intro acc; simp [countOcc]
  | cons c rest ih =>
    intro acc
    rw [List.foldl_cons, ih (bump c acc), bump_lookup]
    have : countOcc k (c :: rest) = (if k = c then 1 else 0) + countOcc k rest := by
      rw [countOcc, countOcc, List.countP_cons]
      by_cases h : c = k
      · rw [if_pos (by simp [h]), if_pos h.symm]
        omega
      · rw [if_neg (by simp [h]), if_neg (fun h2 => h h2.symm)]
        omega
    rw [this]
    omega

theorem tally_lookup {K : Type} [DecidableEq K] (k : K) (cs : List K) :
    lookupCount k (tally cs) = countOcc k cs := by
  rw [tally, foldl_bump_lookup k cs [], lookupCount]
  omega

theorem foldl_bump_keys {K : Type} [DecidableEq K] :
    ∀ (l : List K) (acc : List (K × ℕ)),
      (l.foldl (fun a c => bump c a) acc).map Prod.fst =
        acc.map Prod.fst ++
          firstKeys (l.filter (fun x => decide (¬ x ∈ acc.map Prod.fst))) := by
  intro l
  induction l with
  | nil => intro acc; simp [firstKeys]
  | cons c rest ih =>
    intro acc
    rw [List.foldl_cons, ih (bump c acc), bump_keys]
    by_cases hmem : c ∈ acc.map Prod.fst
    · rw [if_pos hmem]
      congr 1
      congr 1
      rw [List.filter_cons, if_neg (by simpa using hmem)]
    · rw [if_neg hmem]
      rw [List.filter_cons, if_pos (by simpa using hmem)]
      rw [firstKeys]
      rw [List.append_assoc]
      congr 1
      rw [List.filter_filter]
      rw [List.singleton_append]
      congr 1
      have hfeq : rest.filter (fun x => decide (x ∉ List.map Prod.fst acc ++ [c])) =
          rest.filter (fun a => decide (¬ a = c) && decide (a ∉ List.map Prod.fst acc)) := by
        apply List.filter_congr
        intro x _
        by_cases h1 : x = c
        · simp [h1]
        · by_cases h2 : x ∈ acc.map Prod.fst
          · simp [h1, h2]
          · simp [h1, h2]
      rw [hfeq]

theorem tally_keys {K : Type} [DecidableEq K] (cs : List K) :
    (tally cs).map Prod.fst = firstKeys cs := by
  rw [tally, foldl_bump_keys cs []]
  simp only [List.map_nil, List.nil_append]
  congr 1
  apply List.filter_eq_self.mpr
  intro a _
  simp

theorem mem_firstKeys {K : Type} [DecidableEq K] :
    ∀ (n : ℕ) (cs : List K), cs.length ≤ n → ∀ x, (x ∈ firstKeys cs ↔ x ∈ cs) := by
  intro n
  induction n with
  | zero =>
    intro cs hlen x
    rw [List.length_eq_zero.mp (Nat.le_zero.mp hlen)]
    rw [firstKeys]
  | succ m ih =>
    intro cs hlen x
    cases cs with
    | nil => rw [firstKeys]
    | cons c rest =>
      rw [firstKeys]
      simp only [List.mem_cons]
      constructor
      · rintro (h | h)
        · exact Or.inl h
        · have hlen2 : (rest.filter (fun x => decide (¬ x = c))).length ≤ m := by
            have := List.length_filter_le (fun x => decide (¬ x = c)) rest
            simp only [List.length_cons] at hlen
            omega
          have := (ih _ hlen2 x).mp h
          exact Or.inr (List.mem_of_mem_filter this)
      · rintro (h | h)
        · exact Or.inl h
        · by_cases hxc : x = c
          · exact Or.inl hxc
          · right
            have hlen2 : (rest.filter (fun x => decide (¬ x = c))).length ≤ m := by
              have := List.length_filter_le (fun x => decide (¬ x = c)) rest
              simp only [List.length_cons] at hlen
              omega
            apply (ih _ hlen2 x).mpr
            exact List.mem_filter.mpr ⟨h, by simpa using hxc⟩

theorem lookup_mem {K : Type} [DecidableEq K] (k : K) :
    ∀ l : List (K × ℕ), k ∈ l.map Prod.fst → (k, lookupCount k l) ∈ l := by
  intro l
  induction l with
  | nil => intro h; simp at h
  | cons p rest ih =>
    intro h
    obtain ⟨ka, n⟩ := p
    rw [lookupCount]
    by_cases hka : ka = k
    · rw [if_pos hka, hka]
      simp
    · rw [if_neg hka]
      simp only [List.map_cons, List.mem_cons] at h
      rcases h with h | h
      · exact absurd h.symm hka
      · exact List.mem_cons_of_mem _ (ih h)

theorem maxBySnd_mem {K : Type} :
    ∀ (rest : List (K × ℕ)) (best : K × ℕ), maxBySnd best rest ∈ best :: rest := by
  intro rest
  induction rest with
  | nil => intro best; simp [maxBySnd]
  | cons p rest ih =>
    intro best
    rw [maxBySnd]
    split
    · have := ih p
      rcases List.mem_cons.mp this with h | h
      · rw [h]; simp
      · simp [h]
    · have := ih best
      rcases List.mem_cons.mp this with h | h
      · rw [h]; simp
      · simp [h]

theorem maxBySnd_ge {K : Type} :
    ∀ (rest : List (K × ℕ)) (best : K × ℕ) (p : K × ℕ), p ∈ best :: rest →
      p.2 ≤ (maxBySnd best rest).2 := by
  intro rest
  induction rest with
  | nil =>
    intro best p hp
    rcases List.mem_cons.mp hp with h | h
    · rw [h]; simp [maxBySnd]
    · simp at h
  | cons q rest ih =>
    intro best p hp
    rw [maxBySnd]
    split
    · rename_i hlt
      rcases List.mem_cons.mp hp with h | h
      · rw [h]
        exact le_trans (le_of_lt hlt) (ih q q (by simp))
      · rcases List.mem_cons.mp h with h2 | h2
        · rw [h2]; exact ih q q (by simp)
        · exact ih q p (by simp [h2])
    · rename_i hge
      rcases List.mem_cons.mp hp with h | h
      · rw [h]; exact ih best best (by simp)
      · rcases List.mem_cons.mp h with h2 | h2
        · rw [h2]
          exact le_trans (not_lt.mp hge) (ih best best (by simp))
        · exact ih best p (by simp [h2])

theorem maxBySnd_find {K : Type} :
    ∀ (rest : List (K × ℕ)) (best : K × ℕ),
      (best :: rest).find? (fun p => decide ((maxBySnd best rest).2 ≤ p.2)) =
        some (maxBySnd best rest) := by
  intro rest
  induction rest with
  | nil =>
    intro best
    rw [maxBySnd]
    simp [List.find?]
  | cons q rest ih =>
    intro best
    rw [maxBySnd]
    split
    · rename_i hlt
      have hq : q.2 ≤ (maxBySnd q rest).2 := maxBySnd_ge rest q q (by simp)
      rw [List.find?]
      rw [show (decide ((maxBySnd q rest).2 ≤ best.2)) = false by
        simp only [decide_eq_false_iff_not, not_le]
        exact lt_of_lt_of_le hlt hq]
      exact ih q
    · rename_i hge
      have hble : q.2 ≤ best.2 := not_lt.mp hge
      rw [List.find?]
      cases hb : decide ((maxBySnd best rest).2 ≤ best.2) with
      | true =>
        have := ih best
        rw [List.find?, hb] at this
        simpa using this
      | false =>
        have hbest : best.2 < (maxBySnd best rest).2 := by
          simpa using hb
        rw [List.find?]
        rw [show (decide ((maxBySnd best rest).2 ≤ q.2)) = false by
          simp only [decide_eq_false_iff_not, not_le]
          exact lt_of_le_of_lt hble hbest]
        have := ih best
        rw [List.find?, hb] at this
        exact this

theorem find_filter_ne {K : Type} [DecidableEq K] (p : K → Bool) (c : K) (hc : p c = false) :
    ∀ l : List K, l.find? p = (l.filter (fun x => decide (¬ x = c))).find? p := by
  intro l
  induction l with
  | nil => simp
  | cons x rest ih =>
    by_cases hxc : x = c
    · rw [List.filter_cons, if_neg (by simpa using hxc)]
      rw [List.find?, hxc, hc]
      exact ih
    · rw [List.filter_cons, if_pos (by simpa using hxc)]
      rw [List.find?, List.find?]
      cases hpx : p x with
      | true => rfl
      | false => exact ih

theorem find_firstKeys {K : Type} [DecidableEq K] :
    ∀ (n : ℕ) (cs : List K), cs.length ≤ n → ∀ (p : K → Bool),
      cs.find? p = (firstKeys cs).find? p := by
  intro n
  induction n with
  | zero =>
    intro cs hlen p
    rw [List.length_eq_zero.mp (Nat.le_zero.mp hlen), firstKeys]
  | succ m ih =>
    intro cs hlen p
    cases cs with
    | nil => rw [firstKeys]
    | cons c rest =>
      rw [firstKeys, List.find?, List.find?]
      cases hpc : p c with
      | true => rfl
      | false =>
        have hlen2 : (rest.filter (fun x => decide (¬ x = c))).length ≤ m := by
          have := List.length_filter_le (fun x => decide (¬ x = c)) rest
          simp only [List.length_cons] at hlen
          omega
        rw [find_filter_ne p c hpc rest]
        exact ih _ hlen2 p

theorem le_foldr_max (x : ℕ) : ∀ l : List ℕ, x ∈ l → x ≤ l.foldr max 0 := by
  intro l
  induction l with
  | nil => intro h; simp at h
  | cons a rest ih =>
    intro h
    rcases List.mem_cons.mp h with h | h
    · rw [h, List.foldr_cons]
      exact le_max_left _ _
    · rw [List.foldr_cons]
      exact le_trans (ih h) (le_max_right _ _)

theorem foldr_max_le (m : ℕ) : ∀ l : List ℕ, (∀ x ∈ l, x ≤ m) → l.foldr max 0 ≤ m := by
  intro l
  induction l with
  | nil => intro _; simp
  | cons a rest ih =>
    intro h
    rw [List.foldr_cons]
    exact max_le (h a (by simp)) (ih (fun x hx => h x (by simp [hx])))

theorem findCongrOn {K : Type} (p q : K → Bool) :
    ∀ l : List K, (∀ x ∈ l, p x = q x) → l.find? p = l.find? q := by
  intro l
  induction l with
  | nil => intro _; rfl
  | cons a rest ih =>
    intro h
    rw [List.find?, List.find?, h a (by simp)]
    cases q a with
    | true => rfl
    | false => exact ih (fun x hx => h x (by simp [hx]))

theorem firstKeys_nodup {K : Type} [DecidableEq K] :
    ∀ (n : ℕ) (cs : List K), cs.length ≤ n → (firstKeys cs).Nodup := by
  intro n
  induction n with
  | zero =>
    intro cs hlen
    rw [List.length_eq_zero.mp (Nat.le_zero.mp hlen), firstKeys]
    exact List.nodup_nil
  | succ m ih =>
    intro cs hlen
    cases cs with
    | nil =>
      rw [firstKeys]
      exact List.nodup_nil
    | cons c rest =>
      have hle : (rest.filter (fun x => decide (¬ x = c))).length ≤ m := by
        have := List.length_filter_le (fun x => decide (¬ x = c)) rest
        simp only [List.length_cons] at hlen
        omega
      rw [firstKeys]
      refine List.Nodup.cons ?_ (ih _ hle)
      intro hmem
      have hx := (mem_firstKeys m _ hle c).mp hmem
      have := List.mem_filter.mp hx
      simp at this

theorem mem_lookup {K : Type} [DecidableEq K] :
    ∀ (l : List (K × ℕ)), (l.map Prod.fst).Nodup →
      ∀ (k : K) (n : ℕ), (k, n) ∈ l → lookupCount k l = n := by
  intro l
  induction l with
  | nil => intro _ k n h; simp at h
  | cons p rest ih =>
    intro hnd k n h
    obtain ⟨ka, na⟩ := p
    simp only [List.map_cons, List.nodup_cons] at hnd
    rw [lookupCount]
    rcases List.mem_cons.mp h with h1 | h1
    · have hk : k = ka ∧ n = na := by
        constructor <;> [exact congrArg Prod.fst h1; exact congrArg Prod.snd h1]
      rw [if_pos hk.1.symm]
      exact hk.2.symm
    · by_cases hk : ka = k
      · exfalso
        apply hnd.1
        rw [hk]
        exact List.mem_map_of_mem Prod.fst h1
      · rw [if_neg hk]
        exact ih hnd.2 k n h1

theorem tally_keys_nodup {K : Type} [DecidableEq K] (cs : List K) :
    ((tally cs).map Prod.fst).Nodup := by
  rw [tally_keys]
  exact firstKeys_nodup cs.length cs le_rfl

/-- Key bridge: the dict-and-max implementation of the most-frequent color
equals the claim's description: the first list element attaining the maximal
occurrence count (most frequent, ties resolved to the first-seen value). -/
theorem firstMostFrequent_eq {K : Type} [DecidableEq K] (c0 : K) (cs : List K) :
    firstMostFrequent (c0 :: cs) = some (mostFrequent c0 cs) := by
  cases ht : tally (c0 :: cs) with
  | nil =>
    exfalso
    have hkeys : (tally (c0 :: cs)).map Prod.fst = firstKeys (c0 :: cs) := tally_keys _
    rw [ht, firstKeys] at hkeys
    simp at hkeys
  | cons t0 ts =>
    have hr : maxBySnd t0 ts ∈ tally (c0 :: cs) := by
      rw [ht]
      exact maxBySnd_mem ts t0
    have hnd := tally_keys_nodup (c0 :: cs)
    have hrcount : (maxBySnd t0 ts).2 = countOcc (maxBySnd t0 ts).1 (c0 :: cs) := by
      have := mem_lookup (tally (c0 :: cs)) hnd (maxBySnd t0 ts).1 (maxBySnd t0 ts).2 hr
      rw [tally_lookup] at this
      exact this.symm
    have hrk : (maxBySnd t0 ts).1 ∈ c0 :: cs := by
      have h1 : (maxBySnd t0 ts).1 ∈ (tally (c0 :: cs)).map Prod.fst :=
        List.mem_map_of_mem Prod.fst hr
      rw [tally_keys] at h1
      exact (mem_firstKeys (c0 :: cs).length _ le_rfl _).mp h1
    have hmc : maxCount (c0 :: cs) = (maxBySnd t0 ts).2 := by
      apply le_antisymm
      · apply foldr_max_le
        intro x hx
        simp only [List.mem_map] at hx
        obtain ⟨c, hc, hceq⟩ := hx
        have hck : c ∈ (tally (c0 :: cs)).map Prod.fst := by
          rw [tally_keys]
          exact (mem_firstKeys (c0 :: cs).length _ le_rfl c).mpr hc
        have hcp := lookup_mem c _ hck
        rw [ht] at hcp
        have hle := maxBySnd_ge ts t0 _ hcp
        simp only at hle
        rw [← ht, tally_lookup] at hle
        rw [← hceq]
        exact hle
      · rw [hrcount]
        apply le_foldr_max
        exact List.mem_map_of_mem (fun c => countOcc c (c0 :: cs)) hrk
    rw [firstMostFrequent]
    rw [find_firstKeys (c0 :: cs).length _ le_rfl _]
    rw [← tally_keys, List.find?_map]
    have step2 : (tally (c0 :: cs)).find?
        ((fun c => decide (countOcc c (c0 :: cs) = maxCount (c0 :: cs))) ∘ Prod.fst) =
        (tally (c0 :: cs)).find? (fun p => decide ((maxBySnd t0 ts).2 ≤ p.2)) := by
      apply findCongrOn
      intro p hp
      have hpcount : p.2 = countOcc p.1 (c0 :: cs) := by
        have := mem_lookup (tally (c0 :: cs)) hnd p.1 p.2 hp
        rw [tally_lookup] at this
        exact this.symm
      have hple : p.2 ≤ (maxBySnd t0 ts).2 := by
        rw [ht] at hp
        exact maxBySnd_ge ts t0 p hp
      simp only [Function.comp]
      rw [← hpcount, hmc]
      by_cases he : p.2 = (maxBySnd t0 ts).2
      · simp [he]
      · have hnle : ¬ (maxBySnd t0 ts).2 ≤ p.2 := fun hcon => he (le_antisymm hple hcon)
        simp [he, hnle]
    rw [step2, ht, maxBySnd_find ts t0]
    have hmf : mostFrequent c0 cs = (maxBySnd t0 ts).1 := by
      rw [mostFrequent, ht]
    rw [hmf]
    rfl

theorem outSideBound (l0 l1 s0 s1 : ℚ)
    (hout : l1 < (s0 + s1) / 2 ∨ (s0 + s1) / 2 < l0) :
    2 * (min l1 s1 - max l0 s0) < s1 - s0 := by
  have h1 : min l1 s1 ≤ l1 := min_le_left _ _
  have h2 : min l1 s1 ≤ s1 := min_le_right _ _
  have h3 : l0 ≤ max l0 s0 := le_max_left _ _
  have h4 : s0 ≤ max l0 s0 := le_max_right _ _
  rcases hout with h | h
  · linarith
  · linarith

/-- If the IoU of two rects is at least 1/2, the centroid of the second lies
inside the first: a span overlapping a line rect that strongly cannot have
its centre outside it.  Consequently the strict IoU > 0.5 test of
derive_line_styles_from_spans matches exactly the same spans as the claim's
non-strict IoU at least 0.5 (the boundary case is absorbed by the centroid
disjunct). -/
theorem iou_half_centroid (a b : Rect) (h : 1 / 2 ≤ rect_iou a b) :
    point_in_rect (rect_center b) a = true := by
  by_contra hout
  simp only [rect_iou] at h
  set dx := min a.x1 b.x1 - max a.x0 b.x0 with hdx
  set dy := min a.y1 b.y1 - max a.y0 b.y0 with hdy
  by_cases hint : max 0 dx * max 0 dy ≤ 0
  · rw [if_pos hint] at h
    norm_num at h
  · rw [if_neg hint] at h
    push_neg at hint
    have hdxpos : 0 < dx := by
      by_contra hle
      push_neg at hle
      rw [max_eq_left hle] at hint
      simp at hint
    have hdypos : 0 < dy := by
      by_contra hle
      push_neg at hle
      rw [max_eq_left hle] at hint
      simp at hint
    have hmx : max 0 dx = dx := max_eq_right (le_of_lt hdxpos)
    have hmy : max 0 dy = dy := max_eq_right (le_of_lt hdypos)
    rw [hmx, hmy] at h
    set U := max (1 / 1000000000)
        ((a.x1 - a.x0) * (a.y1 - a.y0) + (b.x1 - b.x0) * (b.y1 - b.y0) - dx * dy) with hU
    have hupos : (0 : ℚ) < U := lt_max_of_lt_left (by norm_num)
    have hdd : (1 / 2) * U ≤ dx * dy := (le_div_iff₀ hupos).mp h
    have hmax : (a.x1 - a.x0) * (a.y1 - a.y0) + (b.x1 - b.x0) * (b.y1 - b.y0) - dx * dy ≤
        U := by
      rw [hU]
      exact le_max_right _ _
    have h3 : (a.x1 - a.x0) * (a.y1 - a.y0) + (b.x1 - b.x0) * (b.y1 - b.y0) ≤
        3 * (dx * dy) := by nlinarith [hdd, hmax]
    have hdxa : dx ≤ a.x1 - a.x0 := by
      rw [hdx]
      have p1 : min a.x1 b.x1 ≤ a.x1 := min_le_left _ _
      have p2 : a.x0 ≤ max a.x0 b.x0 := le_max_left _ _
      linarith
    have hdya : dy ≤ a.y1 - a.y0 := by
      rw [hdy]
      have p1 : min a.y1 b.y1 ≤ a.y1 := min_le_left _ _
      have p2 : a.y0 ≤ max a.y0 b.y0 := le_max_left _ _
      linarith
    have hdxb : dx ≤ b.x1 - b.x0 := by
      rw [hdx]
      have p1 : min a.x1 b.x1 ≤ b.x1 := min_le_right _ _
      have p2 : b.x0 ≤ max a.x0 b.x0 := le_max_right _ _
      linarith
    have hdyb : dy ≤ b.y1 - b.y0 := by
      rw [hdy]
      have p1 : min a.y1 b.y1 ≤ b.y1 := min_le_right _ _
      have p2 : b.y0 ≤ max a.y0 b.y0 := le_max_right _ _
      linarith
    have e3 : dx * dy ≤ (a.x1 - a.x0) * (a.y1 - a.y0) :=
      mul_le_mul hdxa hdya (le_of_lt hdypos) (le_trans (le_of_lt hdxpos) hdxa)
    have hout4 : (b.x0 + b.x1) / 2 < a.x0 ∨ a.x1 < (b.x0 + b.x1) / 2 ∨
        (b.y0 + b.y1) / 2 < a.y0 ∨ a.y1 < (b.y0 + b.y1) / 2 := by
      by_contra hcon
      push_neg at hcon
      apply hout
      simp only [point_in_rect, rect_center, Bool.and_eq_true, decide_eq_true_eq]
      exact ⟨⟨⟨hcon.1, hcon.2.1⟩, hcon.2.2.1⟩, hcon.2.2.2⟩
    rcases hout4 with hc | hc | hc | hc
    · have hb2 : 2 * dx < b.x1 - b.x0 := by
        rw [hdx]
        exact outSideBound a.x0 a.x1 b.x0 b.x1 (Or.inr hc)
      have hbw : 0 < b.x1 - b.x0 := by linarith
      have e1 : 2 * (dx * dy) < (b.x1 - b.x0) * dy := by
        have := mul_lt_mul_of_pos_right hb2 hdypos
        linarith [this]
      have e2 : (b.x1 - b.x0) * dy ≤ (b.x1 - b.x0) * (b.y1 - b.y0) :=
        mul_le_mul_of_nonneg_left hdyb (le_of_lt hbw)
      linarith [e1, e2, e3, h3]
    · have hb2 : 2 * dx < b.x1 - b.x0 := by
        rw [hdx]
        exact outSideBound a.x0 a.x1 b.x0 b.x1 (Or.inl hc)
      have hbw : 0 < b.x1 - b.x0 := by linarith
      have e1 : 2 * (dx * dy) < (b.x1 - b.x0) * dy := by
        have := mul_lt_mul_of_pos_right hb2 hdypos
        linarith [this]
      have e2 : (b.x1 - b.x0) * dy ≤ (b.x1 - b.x0) * (b.y1 - b.y0) :=
        mul_le_mul_of_nonneg_left hdyb (le_of_lt hbw)
      linarith [e1, e2, e3, h3]
    · have hb2 : 2 * dy < b.y1 - b.y0 := by
        rw [hdy]
        exact outSideBound a.y0 a.y1 b.y0 b.y1 (Or.inr hc)
      have hbh : 0 < b.y1 - b.y0 := by linarith
      have e1 : 2 * (dx * dy) < dx * (b.y1 - b.y0) := by
        have := mul_lt_mul_of_pos_left hb2 hdxpos
        linarith [this]
      have e2 : dx * (b.y1 - b.y0) ≤ (b.x1 - b.x0) * (b.y1 - b.y0) :=
        mul_le_mul_of_nonneg_right hdxb (le_of_lt hbh)
      linarith [e1, e2, e3, h3]
    · have hb2 : 2 * dy < b.y1 - b.y0 := by
        rw [hdy]
        exact outSideBound a.y0 a.y1 b.y0 b.y1 (Or.inl hc)
      have hbh : 0 < b.y1 - b.y0 := by linarith
      have e1 : 2 * (dx * dy) < dx * (b.y1 - b.y0) := by
        have := mul_lt_mul_of_pos_left hb2 hdxpos
        linarith [this]
      have e2 : dx * (b.y1 - b.y0) ≤ (b.x1 - b.x0) * (b.y1 - b.y0) :=
        mul_le_mul_of_nonneg_right hdxb (le_of_lt hbh)
      linarith [e1, e2, e3, h3]

/-- The strict IoU > 0.5 filter of the source and the claim's IoU at least 0.5
filter match exactly the same spans: at IoU exactly 0.5 the centroid lies
inside the line rect (iou_half_centroid), so the centroid disjunct absorbs
the boundary. -/
theorem lineMatchedSpans_eq (spans : List Span) (ln : Line) :
    lineMatchedSpans spans ln = lineMatchedSpansSpec spans ln := by
  apply List.filter_congr
  intro sp _
  by_cases hpage : sp.page = ln.page
  · cases hin : point_in_rect (rect_center sp.rect) ln.rect with
    | true => simp [hpage, hin]
    | false =>
      by_cases hiou : 1 / 2 ≤ rect_iou ln.rect sp.rect
      · exfalso
        have := iou_half_centroid ln.rect sp.rect hiou
        rw [hin] at this
        exact Bool.false_ne_true this
      · have hlt : ¬ 1 / 2 < rect_iou ln.rect sp.rect := fun h => hiou (le_of_lt h)
        rw [decide_eq_false hlt, decide_eq_false hiou]
  · simp [hpage]

/-- Claim C3 (counterexample): the claim says a span with IoU at least 0.4
against the Block rect is aggregated, but the source uses a strict
comparison.  For the block rect (0,0,1,1) and the span rect (0,0,1,2.5) the
IoU is exactly 0.4 — float-exactly too: area 2.5 and union 2.5 are exact
doubles and the quotient 1/2.5 rounds to precisely the double of the literal
0.4, so the source's strict test 0.4 > 0.4 fails just as the rational model
says — and the span centroid (0.5,1.25) lies outside the block.  The span
therefore matches per the claim (which would set the block fontsize to
median [20] = 20), yet the code matches nothing and leaves the block's
default fontsize 11.5 unchanged. -/
theorem derive_block_boundary_cex :
    rect_iou (Rect.mk 0 0 1 1) (Rect.mk 0 0 1 (5 / 2)) = 2 / 5 ∧
    point_in_rect (rect_center (Rect.mk 0 0 1 (5 / 2))) (Rect.mk 0 0 1 1) = false ∧
    derive_block_style [Span.mk 0 (Rect.mk 0 0 1 (5 / 2)) "x" 20 [1] "Arial" 1]
        (Block.mk 0 (Rect.mk 0 0 1 1) "" (23 / 2) [0] "helv" 0) =
      Block.mk 0 (Rect.mk 0 0 1 1) "" (23 / 2) [0] "helv" 0 ∧
    pyMedian [20] = 20 ∧
    (Block.mk 0 (Rect.mk 0 0 1 1) "" (23 / 2) [0] "helv" 0).fontsize ≠ 20 := by
  have hiou : rect_iou (Rect.mk 0 0 1 1) (Rect.mk 0 0 1 (5 / 2)) = 2 / 5 := by
    norm_num [rect_iou, max_def, min_def]
  have hin : point_in_rect (rect_center (Rect.mk 0 0 1 (5 / 2))) (Rect.mk 0 0 1 1) = false := by
    norm_num [point_in_rect, rect_center]
  have hfil : blockMatchedSpans [Span.mk 0 (Rect.mk 0 0 1 (5 / 2)) "x" 20 [1] "Arial" 1]
      (Block.mk 0 (Rect.mk 0 0 1 1) "" (23 / 2) [0] "helv" 0) = [] := by
    simp only [blockMatchedSpans, List.filter]
    rw [show rect_iou (Block.mk 0 (Rect.mk 0 0 1 1) "" (23 / 2) [0] "helv" 0).rect
        (Span.mk 0 (Rect.mk 0 0 1 (5 / 2)) "x" 20 [1] "Arial" 1).rect = 2 / 5 from hiou]
    rw [show point_in_rect (rect_center
        (Span.mk 0 (Rect.mk 0 0 1 (5 / 2)) "x" 20 [1] "Arial" 1).rect)
        (Block.mk 0 (Rect.mk 0 0 1 1) "" (23 / 2) [0] "helv" 0).rect = false from hin]
    norm_num
  refine ⟨hiou, hin, ?_, ?_, by norm_num⟩
  · rw [derive_block_style, hfil]
  · norm_num [pyMedian, List.insertionSort, List.orderedInsert]

/-- Claim C3 (amended): coarse style aggregation matches exactly the spans on
the same page whose rect has IoU at least 0.5 with the Line's rect (for
Lines; the source's strict test is equivalent at this threshold) resp.
strictly above 0.4 with the Block's rect (for Blocks; the 0.4 boundary is
exclusive), or whose centroid lies inside the unit; it then sets fontsize to
the median of the matched sizes, color to the most frequent matched color
with ties resolved to the first-seen color, font and flags copied from the
first matched span, all other fields unchanged; with no match the unit is
returned unchanged. -/
theorem derive_styles_spec_amended (spans : List Span) (ln : Line) (bl : Block) :
    (lineMatchedSpansSpec spans ln = [] → derive_line_style spans ln = ln) ∧
    (∀ s0 srest, lineMatchedSpansSpec spans ln = s0 :: srest →
      (derive_line_style spans ln).fontsize =
        pyMedian ((s0 :: srest).map (fun s => s.fontsize)) ∧
      some (derive_line_style spans ln).color =
        firstMostFrequent ((s0 :: srest).map (fun s => s.color)) ∧
      (derive_line_style spans ln).font = s0.font ∧
      (derive_line_style spans ln).flags = s0.flags ∧
      (derive_line_style spans ln).page = ln.page ∧
      (derive_line_style spans ln).rect = ln.rect ∧
      (derive_line_style spans ln).text = ln.text) ∧
    (blockMatchedSpans spans bl = [] → derive_block_style spans bl = bl) ∧
    (∀ s0 srest, blockMatchedSpans spans bl = s0 :: srest →
      (derive_block_style spans bl).fontsize =
        pyMedian ((s0 :: srest).map (fun s => s.fontsize)) ∧
      some (derive_block_style spans bl).color =
        firstMostFrequent ((s0 :: srest).map (fun s => s.color)) ∧
      (derive_block_style spans bl).font = s0.font ∧
      (derive_block_style spans bl).flags = s0.flags ∧
      (derive_block_style spans bl).page = bl.page ∧
      (derive_block_style spans bl).rect = bl.rect ∧
      (derive_block_style spans bl).text = bl.text) := by
  have heq := lineMatchedSpans_eq spans ln
  refine ⟨?_, ?_, ?_, ?_⟩
  · intro h
    rw [derive_line_style, heq, h]
  · intro s0 srest h
    rw [← heq] at h
    have hres : derive_line_style spans ln = { ln with
        fontsize := pyMedian ((s0 :: srest).map (fun s => s.fontsize)),
        color := mostFrequent s0.color (srest.map (fun s => s.color)),
        font := s0.font, flags := s0.flags } := by
      rw [derive_line_style, h]
    rw [hres]
    exact ⟨rfl, (firstMostFrequent_eq s0.color (srest.map (fun s => s.color))).symm,
      rfl, rfl, rfl, rfl, rfl⟩
  · intro h
    rw [derive_block_style, h]
  · intro s0 srest h
    have hres : derive_block_style spans bl = { bl with
        fontsize := pyMedian ((s0 :: srest).map (fun s => s.fontsize)),
        color := mostFrequent s0.color (srest.map (fun s => s.color)),
        font := s0.font, flags := s0.flags } := by
      rw [derive_block_style, h]
    rw [hres]
    exact ⟨rfl, (firstMostFrequent_eq s0.color (srest.map (fun s => s.color))).symm,
      rfl, rfl, rfl, rfl, rfl⟩

/-- Claim C3 witness: a line whose rect coincides with its single same-page
span aggregates that span (median fontsize 12, its color, font and flags),
and a block on another page matches nothing and is unchanged. -/
theorem derive_styles_spec_amended_witness :
    (derive_line_style [Span.mk 0 (Rect.mk 0 0 2 1) "w" 12 [0] "helv" 0]
      (Line.mk 0 (Rect.mk 0 0 2 1) "w" (23 / 2) [0] "helv" 0)).fontsize = pyMedian [12] ∧
    derive_block_style [Span.mk 0 (Rect.mk 0 0 2 1) "w" 12 [0] "helv" 0]
      (Block.mk 1 (Rect.mk 0 0 2 1) "" (23 / 2) [0] "helv" 0) =
      Block.mk 1 (Rect.mk 0 0 2 1) "" (23 / 2) [0] "helv" 0 := by
  have hiou : rect_iou (Rect.mk 0 0 2 1) (Rect.mk 0 0 2 1) = 1 := by
    norm_num [rect_iou, max_def, min_def]
  have hmatch : lineMatchedSpansSpec [Span.mk 0 (Rect.mk 0 0 2 1) "w" 12 [0] "helv" 0]
      (Line.mk 0 (Rect.mk 0 0 2 1) "w" (23 / 2) [0] "helv" 0) =
      [Span.mk 0 (Rect.mk 0 0 2 1) "w" 12 [0] "helv" 0] := by
    simp only [lineMatchedSpansSpec, List.filter]
    rw [show rect_iou (Line.mk 0 (Rect.mk 0 0 2 1) "w" (23 / 2) [0] "helv" 0).rect
        (Span.mk 0 (Rect.mk 0 0 2 1) "w" 12 [0] "helv" 0).rect = 1 from hiou]
    norm_num
  have hbfil : blockMatchedSpans [Span.mk 0 (Rect.mk 0 0 2 1) "w" 12 [0] "helv" 0]
      (Block.mk 1 (Rect.mk 0 0 2 1) "" (23 / 2) [0] "helv" 0) = [] := by
    simp [blockMatchedSpans]
  constructor
  · exact ((derive_styles_spec_amended [Span.mk 0 (Rect.mk 0 0 2 1) "w" 12 [0] "helv" 0]
      (Line.mk 0 (Rect.mk 0 0 2 1) "w" (23 / 2) [0] "helv" 0)
      (Block.mk 1 (Rect.mk 0 0 2 1) "" (23 / 2) [0] "helv" 0)).2.1
      (Span.mk 0 (Rect.mk 0 0 2 1) "w" 12 [0] "helv" 0) [] hmatch).1
  · exact (derive_styles_spec_amended [Span.mk 0 (Rect.mk 0 0 2 1) "w" 12 [0] "helv" 0]
      (Line.mk 0 (Rect.mk 0 0 2 1) "w" (23 / 2) [0] "helv" 0)
      (Block.mk 1 (Rect.mk 0 0 2 1) "" (23 / 2) [0] "helv" 0)).2.2.1 hbfil

end PDFTranslate
